import Mathlib

/-!
Verification development for the `german-legal-mcp` repository (Beck Online
provider).  The TypeScript sources embedded here are
`src/providers/beck/converter.ts` (class `BeckConverter`),
`src/providers/beck/browser.ts` (class `BeckBrowser`) and
`src/providers/beck/tools.ts` (the `beck:*` tool handlers).

Modelling conventions:
* JavaScript strings are embedded as `List Char` (`Str`).
* The rendered page delivered by the headless browser is embedded as an HTML
  node tree `HNode`; `cheerio.load` composed with puppeteer's `page.content()`
  serialization is modelled as the identity on that tree (an `HNode` value can
  be serialized with `renderHtml` wherever the code treats the page as a raw
  string).
* Asynchronous code that can throw is embedded in the `Except Str` monad; the
  browser is an oracle `BeckEnv` mapping a requested URL to either a thrown
  error or a fetch outcome (rendered DOM plus the post-redirect final URL, the
  latter being what `page.url()` / `getCurrentUrl()` reports).
* Library calls (`turndown`, `URL.searchParams`, `JSON.parse`,
  `JSON.stringify`, `encodeURIComponent`, `String.prototype.toLowerCase`) are
  reproduced from their documented JavaScript semantics on the fragment the
  program exercises; each such model carries a doc comment stating its scope.
-/

set_option maxRecDepth 20000

abbrev Str := List Char

/-- Whitespace test used to model JavaScript `String.prototype.trim`, the
`\s` character class and turndown's blank test on the character range the
program manipulates (space, tab, newline, carriage return, vertical tab,
form feed). -/
def isWsChar (c : Char) : Bool :=
  c = ' ' || c = '\t' || c = '\n' || c = '\r' || c = Char.ofNat 11 || c = Char.ofNat 12

/-- JavaScript `String.prototype.trim` on both ends. -/
def jsTrim (l : Str) : Str :=
  ((l.dropWhile isWsChar).reverse.dropWhile isWsChar).reverse

/-- Model of `String.prototype.toLowerCase` character by character, covering
ASCII `A`–`Z` and the Latin-1 uppercase letters `À`–`Þ` (excluding `×`),
which is the full uppercase repertoire relevant to the German denial
phrases the converter matches. -/
def jsLowerChar (c : Char) : Char :=
  if 'A' ≤ c && c ≤ 'Z' then Char.ofNat (c.toNat + 32)
  else if 0xC0 ≤ c.toNat && c.toNat ≤ 0xDE && c.toNat ≠ 0xD7 then Char.ofNat (c.toNat + 32)
  else c

/-- Drop characters up to and including the first occurrence of `sep`;
`none` when `sep` does not occur. -/
def afterFirst (sep : Char) : Str → Option Str
  | [] => none
  | c :: rest => if c = sep then some rest else afterFirst sep rest

/-- Split a character list on a separator character (model of
`String.prototype.split` with a single-character separator). -/
def splitCh (sep : Char) : Str → List Str
  | [] => [[]]
  | c :: rest =>
    if c = sep then [] :: splitCh sep rest
    else
      match splitCh sep rest with
      | s :: ss => (c :: s) :: ss
      | [] => [[c]]

/-! ## `BeckConverter.isAccessDenied`

Source (`converter.ts`):
```
public isAccessDenied(html: string): boolean {
    const h = html.toLowerCase();
    return h.includes('nicht über die notwendigen rechte verfügen') ||
           h.includes('dokument kann nicht angezeigt werden') ||
           h.includes('keine berechtigung zum aufruf');
}
```
`String.prototype.includes` is the substring test, embedded via `<:+:`. -/

def denialPhrase1 : Str := "nicht über die notwendigen rechte verfügen".data

def denialPhrase2 : Str := "dokument kann nicht angezeigt werden".data

def denialPhrase3 : Str := "keine berechtigung zum aufruf".data

def isAccessDenied (html : Str) : Bool :=
  let h := html.map jsLowerChar
  decide (denialPhrase1 <:+: h) || decide (denialPhrase2 <:+: h) ||
    decide (denialPhrase3 <:+: h)

/-! ## `BeckBrowser` in-memory state and `close()`

Source (`browser.ts`):
```
private browser: Browser | null = null;
private page: Page | null = null;
private authCookie: Cookie | null = null;
private isAuthenticated: boolean = false;
...
public async close(): Promise<void> {
    if (this.browser) {
        await this.browser.close();
        this.browser = null;
        this.page = null;
        this.isAuthenticated = false;
    }
}
```
The puppeteer `Browser` and `Page` handles are opaque resources; they are
embedded as numeric handles (the code only ever tests them for `null`). -/

structure Cookie where
  name : Str
  value : Str
  domain : Str
  path : Str
  expires : Int
deriving DecidableEq, Repr

structure BeckBrowserState where
  browser : Option Nat
  page : Option Nat
  authCookie : Option Cookie
  isAuthenticated : Bool
deriving DecidableEq, Repr

def closeBrowser (s : BeckBrowserState) : BeckBrowserState :=
  if s.browser.isSome then
    { browser := none, page := none, authCookie := s.authCookie, isAuthenticated := false }
  else s

/-! ## HTML document model

`cheerio.load` produces a DOM; the converter and the handlers only inspect
tag names, attributes, class lists, text content and document-order
descendant queries, which is what this model provides.  Tag and attribute
names are `String`, attribute values are `Str` because they flow into the
produced markdown. -/

inductive HNode where
  | text (s : Str)
  | elem (tag : String) (attrs : List (String × Str)) (children : List HNode)

/-- First value bound to an attribute name (model of `getAttribute` /
cheerio `.attr`). -/
def getAttrL (attrs : List (String × Str)) (name : String) : Option Str :=
  (attrs.find? (fun p => p.1 = name)).map (·.2)

/-- Class list of an attribute set: the `class` attribute split on spaces
(model of `classList` / class selectors). -/
def classListOf (attrs : List (String × Str)) : List Str :=
  (splitCh ' ' ((getAttrL attrs "class").getD [])).filter (fun c => !c.isEmpty)

def hasClassA (attrs : List (String × Str)) (cls : Str) : Bool :=
  decide (cls ∈ classListOf attrs)

def HNode.attr : HNode → String → Option Str
  | .text _, _ => none
  | .elem _ attrs _, name => getAttrL attrs name

def HNode.isElemWithClass (n : HNode) (cls : Str) : Bool :=
  match n with
  | .text _ => false
  | .elem _ attrs _ => hasClassA attrs cls

def HNode.isTag (n : HNode) (t : String) : Bool :=
  match n with
  | .text _ => false
  | .elem tag _ _ => tag = t

def HNode.hasId (n : HNode) (i : Str) : Bool :=
  match n with
  | .text _ => false
  | .elem _ attrs _ => getAttrL attrs "id" = some i

def HNode.childrenOf : HNode → List HNode
  | .text _ => []
  | .elem _ _ cs => cs

mutual
/-- Concatenated text of all text descendants (model of `textContent` /
cheerio `.text()`). -/
def textContent : HNode → Str
  | .text s => s
  | .elem _ _ cs => textContentList cs
def textContentList : List HNode → Str
  | [] => []
  | n :: rest => textContent n ++ textContentList rest
end

mutual
/-- All proper descendants of a node in document (preorder) order. -/
def nodeDescendants : HNode → List HNode
  | .text _ => []
  | .elem _ _ cs => nodesPreorder cs
def nodesPreorder : List HNode → List HNode
  | [] => []
  | n :: rest => n :: (nodeDescendants n ++ nodesPreorder rest)
end

/-- Descendant query in document order (cheerio `.find` from a node). -/
def findAll (p : HNode → Bool) (n : HNode) : List HNode :=
  (nodeDescendants n).filter p

/-- Whole-document query in document order (cheerio `$(selector)` over the
loaded document, whose root element is `root` itself). -/
def docSelect (p : HNode → Bool) (root : HNode) : List HNode :=
  (root :: nodeDescendants root).filter p

mutual
/-- Remove every descendant matching `p`, together with its subtree
(model of cheerio `.find(selector).remove()`). -/
def removeAll (p : HNode → Bool) : HNode → HNode
  | .text s => .text s
  | .elem t a cs => .elem t a (removeAllList p cs)
def removeAllList (p : HNode → Bool) : List HNode → List HNode
  | [] => []
  | n :: rest =>
    if p n then removeAllList p rest else removeAll p n :: removeAllList p rest
end

/-- HTML text-node escaping used when serializing a DOM back to markup. -/
def htmlEscapeText (s : Str) : Str :=
  s.flatMap fun c =>
    if c = '&' then "&amp;".data
    else if c = '<' then "&lt;".data
    else if c = '>' then "&gt;".data
    else [c]

/-- HTML attribute-value escaping used when serializing a DOM back to
markup. -/
def htmlEscapeAttr (s : Str) : Str :=
  s.flatMap fun c =>
    if c = '&' then "&amp;".data
    else if c = '"' then "&quot;".data
    else [c]

def renderAttrs (attrs : List (String × Str)) : Str :=
  attrs.flatMap fun p => ' ' :: p.1.data ++ '=' :: '"' :: htmlEscapeAttr p.2 ++ ['"']

mutual
/-- Serialization of the DOM back to an HTML string: this models
`page.content()`, i.e. the raw-markup view of the page that the code passes
to `isAccessDenied` and returns for `format: 'html'`. -/
def renderHtml : HNode → Str
  | .text s => htmlEscapeText s
  | .elem t a cs =>
    '<' :: t.data ++ renderAttrs a ++ ['>'] ++ renderHtmlList cs ++
      ('<' :: '/' :: t.data ++ ['>'])
def renderHtmlList : List HNode → Str
  | [] => []
  | n :: rest => renderHtml n ++ renderHtmlList rest
end

/-! ## Turndown model

The converter builds a `TurndownService({headingStyle:'atx',
codeBlockStyle:'fenced'})` and registers the custom rules of
`configureTurndown` (checked in reverse registration order, before the
built-in rules, as turndown's `Rules.add` prepends).  The model reproduces,
from turndown v7's documented algorithm, the fragment the converter
exercises:
* text nodes are markdown-escaped (`escapeMd`, turndown's escape table);
* blank elements are handled by the blank rule;
* the seven custom rules of `configureTurndown`;
* the built-in paragraph, heading (atx) and line-break rules, with every
  other element falling to the default rule (block → padded with blank
  lines, inline → passthrough);
* sibling outputs are joined by turndown's `join`, which caps separating
  newlines at two;
* the final output is trimmed like turndown's `postProcess`.
Turndown's DOM whitespace collapsing and inline flanking-whitespace
extraction are modelled as the identity, i.e. input trees are taken as
already whitespace-normalized. -/

def blockTags : List String :=
  ["address", "article", "aside", "audio", "blockquote", "body", "canvas",
   "center", "dd", "dir", "div", "dl", "dt", "fieldset", "figcaption",
   "figure", "footer", "form", "frameset", "h1", "h2", "h3", "h4", "h5",
   "h6", "header", "hgroup", "hr", "html", "isindex", "li", "main", "menu",
   "nav", "noframes", "noscript", "ol", "output", "p", "pre", "section",
   "table", "tbody", "td", "tfoot", "th", "thead", "tr", "ul"]

def voidTags : List String :=
  ["area", "base", "br", "col", "command", "embed", "hr", "img", "input",
   "keygen", "link", "meta", "param", "source", "track", "wbr"]

def meaningfulWhenBlankTags : List String :=
  ["a", "table", "thead", "tbody", "tfoot", "th", "td", "iframe", "script",
   "audio", "video"]

def isBlockTag (t : String) : Bool := decide (t ∈ blockTags)

def HNode.isVoidElem : HNode → Bool
  | .text _ => false
  | .elem t _ _ => decide (t ∈ voidTags)

def HNode.isMeaningfulElem : HNode → Bool
  | .text _ => false
  | .elem t _ _ => decide (t ∈ meaningfulWhenBlankTags)

/-- Turndown's `isBlank`: a non-void, not meaningful-when-blank element
whose text content is whitespace only and that has no void or
meaningful-when-blank descendant. -/
def isBlankNode (n : HNode) : Bool :=
  match n with
  | .text _ => false
  | .elem t _ _ =>
    !decide (t ∈ voidTags) && !decide (t ∈ meaningfulWhenBlankTags) &&
      (textContent n).all isWsChar &&
      !(nodeDescendants n).any HNode.isVoidElem &&
      !(nodeDescendants n).any HNode.isMeaningfulElem

/-- Global character escapes of turndown's escape table
(backslash, `*`, backtick, `[`, `]`, `_`). -/
def escChar (c : Char) : Str :=
  if c = '\\' || c = '*' || c = '`' || c = '[' || c = ']' || c = '_' then ['\\', c]
  else [c]

def escGlobal (l : Str) : Str := l.flatMap escChar

/-- Start-anchored escapes of turndown's escape table (`^-`, `^+ `,
`^(=+)`, `^(#{1,6}) `, `^~~~`, `^>`, `^(\d+)\. `).  At most one of them can
fire and their trigger characters are distinct, so they are dispatched on
the first character. -/
def escStart (l : Str) : Str :=
  match l with
  | '-' :: r => '\\' :: '-' :: r
  | '+' :: ' ' :: r => '\\' :: '+' :: ' ' :: r
  | '=' :: r => '\\' :: '=' :: r
  | '~' :: '~' :: '~' :: r => '\\' :: '~' :: '~' :: '~' :: r
  | '>' :: r => '\\' :: '>' :: r
  | '#' :: r =>
    let hs := ('#' :: r).takeWhile (fun c => c = '#')
    let rest := ('#' :: r).dropWhile (fun c => c = '#')
    if hs.length ≤ 6 && rest.head? = some ' ' then '\\' :: hs ++ rest else '#' :: r
  | c :: r =>
    if c.isDigit then
      let ds := (c :: r).takeWhile Char.isDigit
      let rest := (c :: r).dropWhile Char.isDigit
      match rest with
      | '.' :: ' ' :: r2 => ds ++ '\\' :: '.' :: ' ' :: r2
      | _ => c :: r
    else c :: r
  | [] => []

/-- Turndown's text-node escaping: sequential application of its escape
table, equivalent (as the replacements never re-trigger one another) to the
global character escapes followed by the start-anchored ones. -/
def escapeMd (l : Str) : Str := escStart (escGlobal l)

def trimNLLeft (l : Str) : Str := l.dropWhile (fun c => c = '\n')

def trimNLRight (l : Str) : Str := (l.reverse.dropWhile (fun c => c = '\n')).reverse

/-- Turndown's `join`: trailing newlines of the accumulated output and
leading newlines of the next replacement are collapsed into a separator of
at most two newlines. -/
def tdJoin (acc repl : Str) : Str :=
  let s1 := trimNLRight acc
  let s2 := trimNLLeft repl
  let n := min (max (acc.length - s1.length) (repl.length - s2.length)) 2
  s1 ++ List.replicate n '\n' ++ s2

def beckOrigin : Str := "https://beck-online.beck.de".data

/-- Replacement of the custom `internalLinks` rule (`filter: 'a'`):
```
let href = element.getAttribute('href');
if (!href || href === 'null') { return content; }
if (href.startsWith('/')) { href = 'https://beck-online.beck.de' + href; }
return `[${content}](${href})`;
```
-/
def anchorReplacement (content : Str) (href : Option Str) : Str :=
  match href with
  | none => content
  | some h =>
    if h.isEmpty || h = "null".data then content
    else if h.head? = some '/' then
      '[' :: content ++ ']' :: '(' :: beckOrigin ++ h ++ [')']
    else '[' :: content ++ ']' :: '(' :: h ++ [')']

/-- First descendant with class `randnr` in document order: the
`querySelector('.randnr, .randnr.rn-beck')` / `querySelector('.randnr')`
lookup of the two Randnummer rules (the second selector of the first rule
is subsumed by `.randnr`). -/
def findRandnr (n : HNode) : Option HNode :=
  (findAll (fun m => m.isElemWithClass "randnr".data) n).head?

/-- Output of the two Randnummer rules once an inner `.randnr` element is
found: `\n\n**[Rn. <text>]** ` (note the trailing space). -/
def randnrReplacement (n : HNode) : Str :=
  match findRandnr n with
  | some r => "\n\n**[Rn. ".data ++ jsTrim (textContent r) ++ "]** ".data
  | none => []

def headingLevel (t : String) : Option Nat :=
  if t = "h1" then some 1 else if t = "h2" then some 2
  else if t = "h3" then some 3 else if t = "h4" then some 4
  else if t = "h5" then some 5 else if t = "h6" then some 6 else none

mutual
/-- Conversion of one node: turndown's `replacementForNode` with the rule
table described above (blank rule first, then the custom rules in reverse
registration order, then the built-ins). -/
def tdNode : HNode → Str
  | .text s => escapeMd s
  | .elem t a cs =>
    let n := HNode.elem t a cs
    let content := tdList [] cs
    if isBlankNode n then (if isBlockTag t then "\n\n".data else [])
    else if t = "p" && (jsTrim (textContent n)).isEmpty then []
    else if t = "a" then anchorReplacement content (getAttrL a "href")
    else if t = "span" && hasClassA a "sidebar-outside".data then randnrReplacement n
    else if t = "span" && hasClassA a "sidebar-inside".data then randnrReplacement n
    else if t = "span" && hasClassA a "aufz".data then '\n' :: content ++ [' ']
    else if t = "span" && hasClassA a "satz".data then content
    else if t = "span" && hasClassA a "absnr".data then
      "\n**".data ++ jsTrim content ++ "**".data
    else
      match headingLevel t with
      | some k => "\n\n".data ++ List.replicate k '#' ++ ' ' :: content ++ "\n\n".data
      | none =>
        if t = "p" then "\n\n".data ++ content ++ "\n\n".data
        else if t = "br" then "  \n".data
        else if isBlockTag t then "\n\n".data ++ content ++ "\n\n".data
        else content
/-- Turndown's `process`: left fold of `join` over the children. -/
def tdList : Str → List HNode → Str
  | acc, [] => acc
  | acc, n :: rest => tdList (tdJoin acc (tdNode n)) rest
end

/-- Turndown's `postProcess` trimming: strip leading tab/CR/newline
characters and trailing whitespace. -/
def tdPostTrim (l : Str) : Str :=
  ((l.dropWhile (fun c => c = '\t' || c = '\r' || c = '\n')).reverse.dropWhile
    isWsChar).reverse

/-- `this.turndown.turndown(html)` on the fragment whose parsed children
are `cs`. -/
def tdRun (cs : List HNode) : Str := tdPostTrim (tdList [] cs)

/-! ## `BeckConverter.htmlToMarkdown` -/

def isParagrH2 (n : HNode) : Bool :=
  n.isTag "h2" && n.isElemWithClass "paragr".data

/-- Selector `.breadcrumb, .dk2, .vkstandfooter` of the structural-removal
step. -/
def isNavOrFooter (n : HNode) : Bool :=
  n.isElemWithClass "breadcrumb".data || n.isElemWithClass "dk2".data ||
    n.isElemWithClass "vkstandfooter".data

/-- Selector `a[name]`: anchor elements carrying a `name` attribute. -/
def isNamedAnchor (n : HNode) : Bool :=
  n.isTag "a" && (n.attr "name").isSome

/-- Content-container resolution: `#printcontent .dokcontent`, then
`#dokcontent`, then `.dokcontent`; the conversion then reads the inner
markup of the first element of the first non-empty selection
(cheerio's `.html()`). -/
def selectedContainer (root : HNode) : Option HNode :=
  let s1 := (docSelect (fun n => n.hasId "printcontent".data) root).flatMap
    (findAll (fun n => n.isElemWithClass "dokcontent".data))
  if !s1.isEmpty then s1.head?
  else
    let s2 := docSelect (fun n => n.hasId "dokcontent".data) root
    if !s2.isEmpty then s2.head?
    else (docSelect (fun n => n.isElemWithClass "dokcontent".data) root).head?

/-- The three `.find(...).remove()` calls applied to the content container,
in source order. -/
def stripContainer (k : HNode) : HNode :=
  removeAll isNamedAnchor (removeAll isParagrH2 (removeAll isNavOrFooter k))

/-- Title resolution:
`$('h2.paragr').first().text().trim() || $('h1').first().text().trim() ||
$('title').text().trim()`. -/
def docTitle (root : HNode) : Str :=
  let t1 := jsTrim (match (docSelect isParagrH2 root).head? with
    | some e => textContent e
    | none => [])
  if !t1.isEmpty then t1
  else
    let t2 := jsTrim (match (docSelect (fun n => n.isTag "h1") root).head? with
      | some e => textContent e
      | none => [])
    if !t2.isEmpty then t2
    else jsTrim (textContentList (docSelect (fun n => n.isTag "title") root))

/-- Scan the digits of a bracketed margin number: consumes decimal digits
from the second argument until a closing bracket, failing on anything
else or on an empty digit run. -/
def rnScanDigits : Str → Str → Option (Str × Str)
  | acc, ']' :: rest => if acc.isEmpty then none else some (acc.reverse, rest)
  | acc, c :: rest => if c.isDigit then rnScanDigits (c :: acc) rest else none
  | _, [] => none

/-- Rewrite of one line for post-processing step 1: a line starting with
`[<digits>]` has that prefix replaced by `**[Rn. <digits>]**`. -/
def rnLine (line : Str) : Str :=
  match line with
  | '[' :: rest =>
    (match rnScanDigits [] rest with
     | some (ds, rest2) => "**[Rn. ".data ++ ds ++ "]**".data ++ rest2
     | none => line)
  | _ => line

/-- Rejoin newline-separated segments. -/
def joinNL : List Str → Str
  | [] => []
  | [s] => s
  | s :: rest => s ++ '\n' :: joinNL rest

/-- Post-processing step 1,
`body.replace(/(^|\n)\[(\d+)\]/g, '$1**[Rn. $2]**')`: since the pattern is
anchored at the string start or right after a newline and the replacement
keeps the anchor, it is the per-line rewrite `rnLine` applied to every
newline-separated segment. -/
def rnRewrite (l : Str) : Str :=
  joinNL ((splitCh '\n' l).map rnLine)

/-- Worker for post-processing step 2; `k` counts the newlines already
emitted in the current run (capped at two per run, matching the greedy
`/\n{3,}/g → '\n\n'` replacement). -/
def collapseGo : Nat → Str → Str
  | _, [] => []
  | k, c :: rest =>
    if c = '\n' then
      (if k < 2 then '\n' :: collapseGo (k + 1) rest else collapseGo k rest)
    else c :: collapseGo 0 rest

/-- Post-processing step 2, `body.replace(/\n{3,}/g, '\n\n')`. -/
def collapseNewlines (l : Str) : Str := collapseGo 0 l

/-- Post-processing step 3, `body.replace(/\[\]\(null\)/g, '')`: delete
every (left-to-right, non-overlapping) occurrence of the literal
`[](null)`. -/
def deleteNullArt : Str → Str
  | '[' :: ']' :: '(' :: 'n' :: 'u' :: 'l' :: 'l' :: ')' :: rest => deleteNullArt rest
  | c :: rest => c :: deleteNullArt rest
  | [] => []

structure MarkdownResult where
  title : Str
  body : Str
deriving DecidableEq, Repr

/-- The children handed to the turndown conversion: the inner markup of
the resolved content container after the structural removals
(`contentContainer.html() || ''`, which is empty when no container
matched). -/
def contentChildren (root : HNode) : List HNode :=
  match selectedContainer root with
  | some k => (stripContainer k).childrenOf
  | none => []

/-- `BeckConverter.htmlToMarkdown` on the loaded document `root`:
title resolution, content-container resolution, structural removals,
turndown conversion of the container's inner markup, the three
post-processing steps in order, and the final trim. -/
def htmlToMarkdown (root : HNode) : MarkdownResult :=
  let title := docTitle root
  let body0 := tdRun (contentChildren root)
  let body1 := rnRewrite body0
  let body2 := collapseNewlines body1
  let body3 := deleteNullArt body2
  { title := title, body := jsTrim body3 }

/-- `BeckConverter.extractContext`: breadcrumb texts from `.breadcrumb li`
in document order, previous/next from `#dk2prev` / `#dk2next` hrefs
(`null` when absent, via `|| null`). -/
structure ContextInfo where
  breadcrumbs : List Str
  previous : Option Str
  next : Option Str
deriving DecidableEq, Repr

def navHref (root : HNode) (i : Str) : Option Str :=
  match (docSelect (fun n => n.hasId i) root).head? with
  | some e =>
    (match e.attr "href" with
     | some h => if h.isEmpty then none else some h
     | none => none)
  | none => none

def extractContext (root : HNode) : ContextInfo :=
  { breadcrumbs :=
      ((docSelect (fun n => n.isElemWithClass "breadcrumb".data) root).flatMap
        (findAll (fun n => n.isTag "li"))).map (fun n => jsTrim (textContent n))
    previous := navHref root "dk2prev".data
    next := navHref root "dk2next".data }

/-! ## Tool-handler layer (`tools.ts`)

`ToolResult` is the MCP result envelope `{content, isError?}`; the optional
flag is kept as `Option Bool` because most success paths omit it.  The
browser is the oracle `BeckEnv`: `fetch url` models one `page.goto(url)`
with its outcome (rendered DOM and post-redirect `page.url()`), so
`fetchPage` reads the rendered content and `resolveUrl` /
`getCurrentUrl()` read the final URL of the same navigation; a `.error`
outcome models a thrown exception anywhere on the await-path (browser
launch, login, navigation). -/

structure ContentBlock where
  type : Str
  text : Str
deriving DecidableEq, Repr

structure ToolResult where
  content : List ContentBlock
  isError : Option Bool
deriving DecidableEq, Repr

def errText (m : Str) : ToolResult := ⟨[⟨"text".data, m⟩], some true⟩

def okText (m : Str) : ToolResult := ⟨[⟨"text".data, m⟩], none⟩

structure FetchOutcome where
  dom : HNode
  finalUrl : Str

/-- The oracle for the platform facilities the handlers call: `fetch`
models one browser navigation (`fetchPage` plus the post-redirect
`getCurrentUrl`), `.error` being a thrown exception; `urlVpath` models the
platform read `(s) => new URL(s).searchParams.get('vpath')` applied to the
string `'https://beck-online.beck.de' + href` built from an arbitrary
page-supplied `href`, where the WHATWG `URL` constructor may throw a
`TypeError` (modelled as `.error` carrying the thrown message, e.g.
`Invalid URL` for an href like `":x"` that yields an invalid port). -/
structure BeckEnv where
  fetch : Str → Except Str FetchOutcome
  urlVpath : Str → Except Str (Option Str)

/-- Argument record of a tool call, with the fields the seven Beck handlers
destructure (absent fields are `none` / defaults, as after the handlers'
casts). -/
structure BeckArgs where
  vpath : Str := []
  format : Option Str := none
  query : Str := []
  page : Option Nat := none
  category : Option Str := none
  only_available : Bool := false
  law_abbreviation : Str := []
  paragraph : Option Str := none
  citation : Str := []
  term : Str := []

/-- Decimal digits of a natural number. -/
def natStr (n : Nat) : Str := Nat.toDigits 10 n

def hexDigitUpper (n : Nat) : Char :=
  if n < 10 then Char.ofNat (48 + n) else Char.ofNat (55 + n)

/-- UTF-8 bytes of a character. -/
def utf8Bytes (c : Char) : List Nat :=
  let n := c.toNat
  if n < 0x80 then [n]
  else if n < 0x800 then [0xC0 + n / 64, 0x80 + n % 64]
  else if n < 0x10000 then [0xE0 + n / 4096, 0x80 + (n / 64) % 64, 0x80 + n % 64]
  else [0xF0 + n / 262144, 0x80 + (n / 4096) % 64, 0x80 + (n / 64) % 64, 0x80 + n % 64]

/-- JavaScript `encodeURIComponent`: unreserved characters
(`A–Z a–z 0–9 - _ . ! ~ * ' ( )`) pass through, everything else is
percent-encoded byte by byte (UTF-8, uppercase hex). -/
def encodeURIComponent (s : Str) : Str :=
  s.flatMap fun c =>
    if c.isAlphanum && c.toNat < 128 ||
        (c = '-' || c = '_' || c = '.' || c = '!' || c = '~' || c = '*' ||
          c = '\'' || c = '(' || c = ')') then [c]
    else (utf8Bytes c).flatMap fun b => ['%', hexDigitUpper (b / 16), hexDigitUpper (b % 16)]

/-- Query-parameter lookup modelling
`new URL(url).searchParams.get(key)`: the query string is what follows the
first `?` up to a `#`; it is split on `&` and each pair on its first `=`
(a pair without `=` has value `""`); the first pair named `key` wins.
Percent-decoding of the opaque identifier values is not modelled.  This
total function is used only on browser-reported URLs (`page.url()`
results), which are always valid serialized URLs, so the `URL` constructor
cannot throw on them; parses of strings built from page-supplied hrefs go
through the throwing oracle `BeckEnv.urlVpath` instead. -/
def urlSearchParam (url : Str) (key : Str) : Option Str :=
  match afterFirst '?' url with
  | none => none
  | some q =>
    let pairs := (splitCh '&' (q.takeWhile (fun c => !(c = '#')))).map fun seg =>
      match afterFirst '=' seg with
      | some v => (seg.takeWhile (fun c => !(c = '=')), v)
      | none => (seg, [])
    (pairs.find? (fun p => decide (p.1 = key))).map (·.2)

def hexDigitLower (n : Nat) : Char :=
  if n < 10 then Char.ofNat (48 + n) else Char.ofNat (87 + n)

/-- `JSON.stringify` escaping of one string character. -/
def jsonEscChar (c : Char) : Str :=
  if c = '"' then ['\\', '"']
  else if c = '\\' then ['\\', '\\']
  else if c = '\n' then ['\\', 'n']
  else if c = '\r' then ['\\', 'r']
  else if c = '\t' then ['\\', 't']
  else if c = Char.ofNat 8 then ['\\', 'b']
  else if c = Char.ofNat 12 then ['\\', 'f']
  else if c.toNat < 32 then
    "\\u00".data ++ [hexDigitLower (c.toNat / 16), hexDigitLower (c.toNat % 16)]
  else [c]

/-- `JSON.stringify` of a string value. -/
def jsonQuote (s : Str) : Str := '"' :: s.flatMap jsonEscChar ++ ['"']

/-! ## `beck:search` parsing -/

structure SearchHit where
  title : Str
  type : Str
  vpath : Str
  link : Str
deriving DecidableEq, Repr

/-- Title anchors of one result row: selector `.treffer-firstline-text a`
relative to the row. -/
def rowTitleAnchors (row : HNode) : List HNode :=
  (findAll (fun n => n.isElemWithClass "treffer-firstline-text".data) row).flatMap
    (findAll (fun n => n.isTag "a"))

/-- Non-empty attribute reads, matching the `if (!type)` falsiness chain
(an absent attribute and an empty one both fall through). -/
def nonEmptyAttr (o : Option Str) : Option Str :=
  match o with
  | some s => if s.isEmpty then none else some s
  | none => none

/-- Result-type label of a row:
`$(el).find('.icon-container i').attr('title')`, then
`...find('svg').attr('title')`, then
`...find('i').attr('data-original-title')`, defaulting to `"Unknown"`. -/
def rowType (row : HNode) : Str :=
  let icons := findAll (fun n => n.isElemWithClass "icon-container".data) row
  let iEls := icons.flatMap (findAll (fun n => n.isTag "i"))
  let svgEls := icons.flatMap (findAll (fun n => n.isTag "svg"))
  ((nonEmptyAttr (iEls.head? >>= (·.attr "title"))).orElse fun _ =>
    (nonEmptyAttr (svgEls.head? >>= (·.attr "title"))).orElse fun _ =>
      nonEmptyAttr (iEls.head? >>= (·.attr "data-original-title"))).getD "Unknown".data

/-- The `$('.treffer-wrapper').each(...)` loop body, accumulating pushed
hits in order; `u` is the platform read
`(s) => new URL(s).searchParams.get('vpath')`: when the `URL` constructor
throws on `'https://beck-online.beck.de' + href` (reached only under
`if (title && href)`), the exception aborts the whole loop and propagates
out of the handler, represented by the `.error` result; the conditional
structure (`if (title && href)`, `if (vpath)`) is that of the source. -/
def searchHitsGo (u : Str → Except Str (Option Str)) :
    List SearchHit → List HNode → Except Str (List SearchHit)
  | acc, [] => .ok acc
  | acc, row :: rest =>
    let anchors := rowTitleAnchors row
    let title := jsTrim (textContentList anchors)
    match anchors.head? >>= (·.attr "href") with
    | some h =>
      if !title.isEmpty && !h.isEmpty then
        match u (beckOrigin ++ h) with
        | .error e => .error e
        | .ok (some v) =>
          searchHitsGo u
            (if !v.isEmpty then acc ++ [⟨title, rowType row, v, h⟩] else acc) rest
        | .ok none => searchHitsGo u acc rest
      else searchHitsGo u acc rest
    | none => searchHitsGo u acc rest

def searchHits (u : Str → Except Str (Option Str)) (root : HNode) :
    Except Str (List SearchHit) :=
  searchHitsGo u [] (docSelect (fun n => n.isElemWithClass "treffer-wrapper".data) root)

/-- Per-row outcome of the loop body (used to state what one result row
contributes): `.error` when the `URL` constructor throws on the row's
href, otherwise the optional hit the row pushes. -/
def rowHit (u : Str → Except Str (Option Str)) (row : HNode) :
    Except Str (Option SearchHit) :=
  let anchors := rowTitleAnchors row
  let title := jsTrim (textContentList anchors)
  match anchors.head? >>= (·.attr "href") with
  | some h =>
    if !title.isEmpty && !h.isEmpty then
      match u (beckOrigin ++ h) with
      | .error e => .error e
      | .ok (some v) =>
        .ok (if !v.isEmpty then some ⟨title, rowType row, v, h⟩ else none)
      | .ok none => .ok none
    else .ok none
  | none => .ok none

/-- `JSON.stringify([{title: 'Direct Hit (Redirected)', type: 'Unknown',
vpath, link: currentUrl}])` (no indentation). -/
def directHitJson (v url : Str) : Str :=
  "[\x7b\"title\":\"Direct Hit (Redirected)\",\"type\":\"Unknown\",\"vpath\":".data ++
    jsonQuote v ++ ",\"link\":".data ++ jsonQuote url ++ "\x7d]".data

/-- One hit as printed by `JSON.stringify(results, null, 2)` (element at
indent 2, keys at indent 4). -/
def hitJsonPretty (h : SearchHit) : Str :=
  "\x7b\n    \"title\": ".data ++ jsonQuote h.title ++
    ",\n    \"type\": ".data ++ jsonQuote h.type ++
    ",\n    \"vpath\": ".data ++ jsonQuote h.vpath ++
    ",\n    \"link\": ".data ++ jsonQuote h.link ++ "\n  \x7d".data

/-- `JSON.stringify(results, null, 2)` for the hit list. -/
def hitsJsonPretty (hs : List SearchHit) : Str :=
  match hs with
  | [] => "[]".data
  | _ => "[\n  ".data ++ List.intercalate ",\n  ".data (hs.map hitJsonPretty) ++ "\n]".data

/-! ## JSON model (for `beck:get_suggestions`)

`JSON.parse` is modelled by a strict JSON parser over `Str`; numbers keep
their lexeme (only their zero-ness is ever consulted, via JavaScript
truthiness).  Divergences, stated for honesty: lone `\uXXXX` surrogates are
rejected rather than accepted, and a non-zero mantissa with an extreme
negative exponent is treated as non-zero (JavaScript would underflow to
`0`). -/

inductive JVal where
  | null
  | bool (b : Bool)
  | num (lexeme : Str)
  | str (s : Str)
  | arr (xs : List JVal)
  | obj (fields : List (Str × JVal))

def jsonWsChar (c : Char) : Bool :=
  c = ' ' || c = '\t' || c = '\n' || c = '\r'

def jpSkipWs (s : Str) : Str := s.dropWhile jsonWsChar

def hexVal (c : Char) : Option Nat :=
  if '0' ≤ c && c ≤ '9' then some (c.toNat - 48)
  else if 'a' ≤ c && c ≤ 'f' then some (c.toNat - 87)
  else if 'A' ≤ c && c ≤ 'F' then some (c.toNat - 55)
  else none

/-- JSON string body parser (after the opening quote). -/
def jpString : Str → Option (Str × Str)
  | [] => none
  | '"' :: r => some ([], r)
  | '\\' :: 'u' :: h1 :: h2 :: h3 :: h4 :: r =>
    (match hexVal h1, hexVal h2, hexVal h3, hexVal h4 with
     | some a, some b, some c, some d =>
       let code := ((a * 16 + b) * 16 + c) * 16 + d
       if code < 0xD800 || 0xDFFF < code then
         (jpString r).map fun p => (Char.ofNat code :: p.1, p.2)
       else none
     | _, _, _, _ => none)
  | '\\' :: e :: r =>
    (match (if e = '"' then some '"' else if e = '\\' then some '\\'
            else if e = '/' then some '/' else if e = 'b' then some (Char.ofNat 8)
            else if e = 'f' then some (Char.ofNat 12) else if e = 'n' then some '\n'
            else if e = 'r' then some '\r' else if e = 't' then some '\t'
            else none) with
     | some c => (jpString r).map fun p => (c :: p.1, p.2)
     | none => none)
  | c :: r =>
    if c.toNat < 32 then none
    else (jpString r).map fun p => (c :: p.1, p.2)

/-- JSON number lexer (strict grammar
`-?(0|[1-9][0-9]*)(\.[0-9]+)?([eE][+-]?[0-9]+)?`); returns the lexeme. -/
def jpNum (s : Str) : Option (Str × Str) :=
  let (sign, s1) := match s with
    | '-' :: r => (['-'], r)
    | _ => (([] : Str), s)
  let intPart := s1.takeWhile Char.isDigit
  let s2 := s1.dropWhile Char.isDigit
  if intPart.isEmpty then none
  else if 1 < intPart.length && intPart.head? = some '0' then none
  else
    let (fracPart, s3) := match s2 with
      | '.' :: r =>
        let ds := r.takeWhile Char.isDigit
        if ds.isEmpty then (none, s2) else (some ('.' :: ds), r.dropWhile Char.isDigit)
      | _ => (none, s2)
    match fracPart, s3 with
    | none, '.' :: _ => none
    | _, _ =>
      let (expPart, s4) := match s3 with
        | 'e' :: r => (some 'e', r)
        | 'E' :: r => (some 'E', r)
        | _ => (none, s3)
      match expPart with
      | none => some (sign ++ intPart ++ (fracPart.getD []), s3)
      | some e =>
        let (esign, s5) := match s4 with
          | '+' :: r => (['+'], r)
          | '-' :: r => (['-'], r)
          | _ => (([] : Str), s4)
        let eds := s5.takeWhile Char.isDigit
        if eds.isEmpty then none
        else some (sign ++ intPart ++ (fracPart.getD []) ++ e :: esign ++ eds,
          s5.dropWhile Char.isDigit)

/-- Object construction from parsed members, as JavaScript does it: a
duplicate key keeps its first position but the last value. -/
def objDedup (fields : List (Str × JVal)) : List (Str × JVal) :=
  fields.foldl
    (fun acc p =>
      if acc.any (fun q => decide (q.1 = p.1)) then
        acc.map fun q => if q.1 = p.1 then (q.1, p.2) else q
      else acc ++ [p])
    []

mutual
/-- Fueled JSON value parser; the fuel only bounds nesting and element
counts (`jsonParse` supplies enough for any input). -/
def jpVal : Nat → Str → Option (JVal × Str)
  | 0, _ => none
  | fuel + 1, s =>
    match jpSkipWs s with
    | 'n' :: 'u' :: 'l' :: 'l' :: r => some (.null, r)
    | 't' :: 'r' :: 'u' :: 'e' :: r => some (.bool true, r)
    | 'f' :: 'a' :: 'l' :: 's' :: 'e' :: r => some (.bool false, r)
    | '"' :: r => (jpString r).map fun p => (.str p.1, p.2)
    | '[' :: r =>
      (match jpSkipWs r with
       | ']' :: r2 => some (.arr [], r2)
       | _ => (jpElems fuel r).map fun p => (.arr p.1, p.2))
    | '\x7b' :: r =>
      (match jpSkipWs r with
       | '\x7d' :: r2 => some (.obj [], r2)
       | _ => (jpMembers fuel r).map fun p => (.obj (objDedup p.1), p.2))
    | s' => jpNum s' |>.map fun p => (.num p.1, p.2)
/-- Array elements after `[` (at least one element). -/
def jpElems : Nat → Str → Option (List JVal × Str)
  | 0, _ => none
  | fuel + 1, s =>
    match jpVal fuel s with
    | some (v, r) =>
      (match jpSkipWs r with
       | ',' :: r2 => (jpElems fuel r2).map fun p => (v :: p.1, p.2)
       | ']' :: r2 => some ([v], r2)
       | _ => none)
    | none => none
/-- Object members after the opening brace (at least one member). -/
def jpMembers : Nat → Str → Option (List (Str × JVal) × Str)
  | 0, _ => none
  | fuel + 1, s =>
    match jpSkipWs s with
    | '"' :: r =>
      (match jpString r with
       | some (k, r2) =>
         (match jpSkipWs r2 with
          | ':' :: r3 =>
            (match jpVal fuel r3 with
             | some (v, r4) =>
               (match jpSkipWs r4 with
                | ',' :: r5 => (jpMembers fuel r5).map fun p => ((k, v) :: p.1, p.2)
                | '\x7d' :: r5 => some ([(k, v)], r5)
                | _ => none)
             | none => none)
          | _ => none)
       | none => none)
    | _ => none
end

/-- `JSON.parse`: parse one value and require only whitespace after it. -/
def jsonParse (s : Str) : Option JVal :=
  match jpVal (s.length + 1) s with
  | some (v, r) => if (jpSkipWs r).isEmpty then some v else none
  | none => none

/-- Result of a JavaScript property read on a parsed JSON value: either
`undefined`, or an own data property holding a JSON value, or a built-in
function inherited from the prototype chain (truthy and not an array). -/
inductive JsProp where
  | undefined
  | val (v : JVal)
  | fn

/-- Property read `o[k]` on a parsed JSON value other than `null`,
resolved through the prototype chain for the two keys this program reads
(`values` and `label`): objects yield their own binding (`Object.prototype`
has neither key); arrays have no own `values`/`label` property but inherit
the iterator method `Array.prototype.values`, a function; primitives box
to `String`/`Number`/`Boolean` wrappers whose prototypes have neither
key. -/
def jsGetProp (v : JVal) (k : Str) : JsProp :=
  match v with
  | .obj fs =>
    (match (fs.find? (fun p => decide (p.1 = k))).map (·.2) with
     | some w => .val w
     | none => .undefined)
  | .arr _ => if k = "values".data then .fn else .undefined
  | _ => .undefined

/-- JavaScript truthiness of a parsed JSON value. -/
def jTruthy (v : JVal) : Bool :=
  match v with
  | .null => false
  | .bool b => b
  | .num lex =>
    ((lex.takeWhile (fun c => !(c = 'e' || c = 'E'))).filter Char.isDigit).any
      (fun c => !(c = '0'))
  | .str s => !s.isEmpty
  | .arr _ => true
  | .obj _ => true

def indentSp (n : Nat) : Str := List.replicate n ' '

mutual
/-- `JSON.stringify(v, null, 2)` of a parsed JSON value printed at the
given indentation (numbers are printed by their lexeme). -/
def jvalPretty : Nat → JVal → Str
  | _, .null => "null".data
  | _, .bool b => if b then "true".data else "false".data
  | _, .num lex => lex
  | _, .str s => jsonQuote s
  | ind, .arr xs =>
    (match xs with
     | [] => "[]".data
     | _ =>
       '[' :: '\n' :: indentSp (ind + 2) ++ jvalPrettyList (ind + 2) xs ++
         '\n' :: indentSp ind ++ [']'])
  | ind, .obj fs =>
    (match fs with
     | [] => "\x7b\x7d".data
     | _ =>
       '\x7b' :: '\n' :: indentSp (ind + 2) ++ jvalPrettyFields (ind + 2) fs ++
         '\n' :: indentSp ind ++ ['\x7d'])
def jvalPrettyList : Nat → List JVal → Str
  | _, [] => []
  | ind, [v] => jvalPretty ind v
  | ind, v :: rest =>
    jvalPretty ind v ++ ',' :: '\n' :: indentSp ind ++ jvalPrettyList ind rest
def jvalPrettyFields : Nat → List (Str × JVal) → Str
  | _, [] => []
  | ind, [p] => jsonQuote p.1 ++ ':' :: ' ' :: jvalPretty ind p.2
  | ind, p :: rest =>
    jsonQuote p.1 ++ ':' :: ' ' :: jvalPretty ind p.2 ++ ',' :: '\n' ::
      indentSp ind ++ jvalPrettyFields ind rest
end

/-- `data.values ? data.values.map((v) => v.label) : []` under JavaScript
semantics: reading `.values` on `null` throws; on an array it finds the
inherited function `Array.prototype.values`, which is truthy but has no
`.map`, so the call throws; a truthy non-array own `values` likewise makes
`.map` throw; an undefined or falsy `values` yields `[]`; a `null` array
element makes `v.label` throw; any other element contributes its `label`
property (`none` = `undefined` when absent or when the element is not an
object). -/
def suggestionLabels (data : JVal) : Except Unit (List (Option JVal)) :=
  match data with
  | .null => .error ()
  | _ =>
    match jsGetProp data "values".data with
    | .undefined => .ok []
    | .fn => .error ()
    | .val w =>
      if jTruthy w then
        match w with
        | .arr xs =>
          xs.foldr
            (fun x acc =>
              match acc with
              | .error e => .error e
              | .ok ls =>
                match x with
                | .null => .error ()
                | _ =>
                  .ok ((match jsGetProp x "label".data with
                        | .val l => some l
                        | _ => none) :: ls))
            (.ok [])
        | _ => .error ()
      else .ok []

/-- `JSON.stringify(suggestions, null, 2)` where `suggestions` is the
mapped label list (an `undefined` array entry prints as `null`). -/
def labelsJsonPretty (ls : List (Option JVal)) : Str :=
  match ls with
  | [] => "[]".data
  | _ =>
    '[' :: '\n' :: indentSp 2 ++
      List.intercalate (',' :: '\n' :: indentSp 2)
        (ls.map fun o => match o with
          | none => "null".data
          | some v => jvalPretty 2 v) ++
      '\n' :: [']']

/-! ## The seven Beck tool handlers -/

/-- The `categoryMap` search-filter table. -/
def categoryMap (c : Str) : Option Str :=
  if c = "Gesetz".data then some "spubtyp0:ges".data
  else if c = "Rechtsprechung".data then some "spubtyp0:ent".data
  else if c = "Kommentar".data then some "spubtyp0:komm".data
  else if c = "Aufsatz".data then some "spubtyp0:aufs".data
  else if c = "Handbuch".data then some "spubtyp0:hdb".data
  else if c = "Formular".data then some "spubtyp0:form".data
  else none

/-- URL built by `handleSearch` (`page` is the already-defaulted page
number). -/
def searchUrl (page : Nat) (query : Str) (category : Option Str)
    (onlyAvailable : Bool) : Str :=
  "https://beck-online.beck.de/Search?pagenr=".data ++ natStr page ++
    "&words=".data ++ encodeURIComponent query ++
    (match category with
     | some c =>
       (match categoryMap c with
        | some code => "&Addfilter=".data ++ encodeURIComponent code
        | none => [])
     | none => []) ++
    (if onlyAvailable then "&MEINBECKONLINE=True".data else [])

def printDocUrl (v : Str) : Str :=
  "https://beck-online.beck.de/Print/CurrentDoc?vpath=".data ++
    encodeURIComponent v ++
    "&printdialogmode=CurrentDoc&options=WithFootNoteInText&options=WithLinks".data

def bcidUrl (g p : Str) : Str :=
  "https://beck-online.beck.de/Bcid?typ=reference&y=100&g=".data ++
    encodeURIComponent g ++ "&p=".data ++ encodeURIComponent p

def dokumentUrl (v : Str) : Str :=
  "https://beck-online.beck.de/Dokument?vpath=".data ++ encodeURIComponent v

def suggestUrl (term : Str) : Str :=
  "https://beck-online.beck.de/Suggest/?typ=std&term=".data ++ encodeURIComponent term

def citationSearchUrl (c : Str) : Str :=
  "https://beck-online.beck.de/Search?words=".data ++ encodeURIComponent c

/-- `const page = (args.page as number) || 1` (an absent or zero page
number defaults to 1). -/
def searchPageOf (args : BeckArgs) : Nat :=
  match args.page with
  | some n => if n = 0 then 1 else n
  | none => 1

/-- `handleSearch`.  `currentUrl` is `browser.getCurrentUrl()` after the
fetch, i.e. the post-redirect final URL of that navigation. -/
def handleSearch (env : BeckEnv) (args : BeckArgs) : Except Str ToolResult := do
  let url := searchUrl (searchPageOf args) args.query args.category args.only_available
  let o ← env.fetch url
  let currentUrl := o.finalUrl
  let direct :=
    if decide ("/Dokument?".data <:+: currentUrl) then
      match urlSearchParam currentUrl "vpath".data with
      | some v => if !v.isEmpty then some (v, currentUrl) else none
      | none => none
    else none
  match direct with
  | some (v, u) => pure (okText (directHitJson v u))
  | none => do
    let hits ← searchHits env.urlVpath o.dom
    pure (okText (hitsJsonPretty hits))

/-- The full-URL branch at the top of `handleGetDocument`:
```
if (vpath.startsWith('http')) {
    const resolvedUrl = await browser.resolveUrl(vpath);
    vpath = new URL(resolvedUrl).searchParams.get('vpath') || vpath;
}
```
-/
def effVpath (env : BeckEnv) (vpath : Str) : Except Str Str :=
  if "http".data.isPrefixOf vpath then do
    let o ← env.fetch vpath
    match urlSearchParam o.finalUrl "vpath".data with
    | some x => pure (if x.isEmpty then vpath else x)
    | none => pure vpath
  else pure vpath

def accessDeniedMsg (v : Str) : Str := "ERROR: Access Denied for vpath: ".data ++ v

def emptyContentMsg (v : Str) : Str :=
  "ERROR: Document content empty or access denied (vpath: ".data ++ v ++ ").".data

/-- `handleGetDocument`. -/
def handleGetDocument (env : BeckEnv) (args : BeckArgs) : Except Str ToolResult := do
  let v ← effVpath env args.vpath
  let o ← env.fetch (printDocUrl v)
  let html := renderHtml o.dom
  if isAccessDenied html then pure (errText (accessDeniedMsg v))
  else if args.format = some "html".data then pure (okText html)
  else
    let md := htmlToMarkdown o.dom
    if (jsTrim md.body).isEmpty then pure (errText (emptyContentMsg v))
    else pure (okText ("# ".data ++ md.title ++ "\n\n".data ++ md.body))

/-- Template interpolation `${paragraph}` of an optional argument
(`undefined` prints as the string `undefined`). -/
def tmplOpt (o : Option Str) : Str :=
  match o with
  | some s => s
  | none => "undefined".data

/-- `handleGetLegislation`. -/
def handleGetLegislation (env : BeckEnv) (args : BeckArgs) : Except Str ToolResult := do
  let o1 ← env.fetch (bcidUrl args.law_abbreviation (args.paragraph.getD []))
  let vp := match urlSearchParam o1.finalUrl "vpath".data with
    | some x => if x.isEmpty then none else some x
    | none => none
  match vp with
  | none => pure (errText "Could not resolve legislation.".data)
  | some v => do
    let o ← env.fetch (printDocUrl v)
    let html := renderHtml o.dom
    if isAccessDenied html then
      pure (errText ("ERROR: Access Denied for ".data ++ args.law_abbreviation ++
        ' ' :: tmplOpt args.paragraph))
    else
      let md := htmlToMarkdown o.dom
      if (jsTrim md.body).isEmpty then
        pure (errText ("ERROR: Empty content for ".data ++ args.law_abbreviation ++
          ' ' :: tmplOpt args.paragraph ++ ".".data))
      else pure (okText ("# ".data ++ md.title ++ "\n\n".data ++ md.body))

def citationJson (citation : Str) (vpath : Option Str) (finalUrl : Str) : Str :=
  "\x7b\n  \"citation\": ".data ++ jsonQuote citation ++
    ",\n  \"vpath\": ".data ++
    (match vpath with
     | some v => jsonQuote v
     | none => "null".data) ++
    ",\n  \"canonical_url\": ".data ++ jsonQuote finalUrl ++ "\n\x7d".data

/-- `handleResolveCitation` (uses `resolveUrl`, i.e. only the final URL of
the navigation). -/
def handleResolveCitation (env : BeckEnv) (args : BeckArgs) : Except Str ToolResult := do
  let o ← env.fetch (citationSearchUrl args.citation)
  let finalUrl := o.finalUrl
  if decide ("/Dokument?".data <:+: finalUrl) then
    pure (okText (citationJson args.citation (urlSearchParam finalUrl "vpath".data) finalUrl))
  else
    pure (errText ("Could not resolve citation \"".data ++ args.citation ++
      "\" to a single document. It might lead to a hitlist or be invalid.".data))

def breadcrumbsJsonPretty (bs : List Str) : Str :=
  match bs with
  | [] => "[]".data
  | _ =>
    "[\n    ".data ++ List.intercalate ",\n    ".data (bs.map jsonQuote) ++ "\n  ]".data

def contextJson (c : ContextInfo) : Str :=
  "\x7b\n  \"breadcrumbs\": ".data ++ breadcrumbsJsonPretty c.breadcrumbs ++
    ",\n  \"siblings\": \x7b\n    \"previous\": ".data ++
    (match c.previous with
     | some h => jsonQuote h
     | none => "null".data) ++
    ",\n    \"next\": ".data ++
    (match c.next with
     | some h => jsonQuote h
     | none => "null".data) ++ "\n  \x7d\n\x7d".data

/-- `handleGetContext`. -/
def handleGetContext (env : BeckEnv) (args : BeckArgs) : Except Str ToolResult := do
  let o ← env.fetch (dokumentUrl args.vpath)
  pure (okText (contextJson (extractContext o.dom)))

/-- `$('body').text()` of the fetched page: concatenated text content of
the `body` elements of the rendered document. -/
def bodyTextOf (root : HNode) : Str :=
  textContentList (docSelect (fun n => n.isTag "body") root)

/-- `handleGetSuggestions`: extract the page-body text, `JSON.parse` it,
read `values` and map to labels; every exception inside the local `try`
(parse failure or the property/`map` type errors) produces the same
error-flagged parse-failure result. -/
def handleGetSuggestions (env : BeckEnv) (args : BeckArgs) : Except Str ToolResult := do
  let o ← env.fetch (suggestUrl args.term)
  let rawJson := bodyTextOf o.dom
  match jsonParse rawJson with
  | none => pure (errText "Failed to parse suggestions JSON.".data)
  | some data =>
    match suggestionLabels data with
    | .error _ => pure (errText "Failed to parse suggestions JSON.".data)
    | .ok ls => pure (okText (labelsJsonPretty ls))

structure Reference where
  text : Str
  vpath : Str
deriving DecidableEq, Repr

def refJsonPretty (r : Reference) : Str :=
  "\x7b\n    \"text\": ".data ++ jsonQuote r.text ++
    ",\n    \"vpath\": ".data ++ jsonQuote r.vpath ++ "\n  \x7d".data

def refsJsonPretty (rs : List Reference) : Str :=
  match rs with
  | [] => "[]".data
  | _ => "[\n  ".data ++ List.intercalate ",\n  ".data (rs.map refJsonPretty) ++ "\n]".data

/-- The `$('a[href*="vpath="]').each(...)` reference scan (note the
`https://beck.de` base used for parsing here). -/
def referencesOf (root : HNode) : List Reference :=
  (docSelect
      (fun n =>
        n.isTag "a" &&
          (match n.attr "href" with
           | some h => decide ("vpath=".data <:+: h)
           | none => false))
      root).foldl
    (fun acc n =>
      let t := jsTrim (textContent n)
      match n.attr "href" with
      | some h =>
        if !t.isEmpty && !h.isEmpty then
          match urlSearchParam ("https://beck.de".data ++ h) "vpath".data with
          | some v => if !v.isEmpty then acc ++ [⟨t, v⟩] else acc
          | none => acc
        else acc
      | none => acc)
    []

/-- `handleGetReferencedDocuments`. -/
def handleGetReferencedDocuments (env : BeckEnv) (args : BeckArgs) :
    Except Str ToolResult := do
  let o ← env.fetch (printDocUrl args.vpath)
  pure (okText (refsJsonPretty (referencesOf o.dom)))

/-- The `switch` body of `handleBeckToolCall` (inside its `try`). -/
def dispatchBeck (toolName : Str) (args : BeckArgs) (env : BeckEnv) :
    Except Str ToolResult :=
  if toolName = "beck:search".data then handleSearch env args
  else if toolName = "beck:get_document".data then handleGetDocument env args
  else if toolName = "beck:get_legislation".data then handleGetLegislation env args
  else if toolName = "beck:resolve_citation".data then handleResolveCitation env args
  else if toolName = "beck:get_context".data then handleGetContext env args
  else if toolName = "beck:get_suggestions".data then handleGetSuggestions env args
  else if toolName = "beck:get_referenced_documents".data then
    handleGetReferencedDocuments env args
  else .ok (errText ("Unknown Beck tool: ".data ++ toolName))

def knownBeckTools : List Str :=
  ["beck:search".data, "beck:get_document".data, "beck:get_legislation".data,
   "beck:resolve_citation".data, "beck:get_context".data,
   "beck:get_suggestions".data, "beck:get_referenced_documents".data]

/-- `handleBeckToolCall`: the `try`/`catch` wrapper turning any thrown
error into the generic error envelope. -/
def handleBeckToolCall (toolName : Str) (args : BeckArgs) (env : BeckEnv) :
    ToolResult :=
  match dispatchBeck toolName args env with
  | .ok r => r
  | .error e => errText ("Error: ".data ++ e)

/-! ## Notions used to state the claims -/

def startsNL (l : Str) : Bool :=
  match l with
  | [] => false
  | c :: _ => c = '\n'

/-- A run of three (or more) consecutive newline characters occurs in the
string. -/
def hasTripleNL : Str → Bool
  | [] => false
  | c :: rest => (decide (c = '\n') && startsNL rest && startsNL rest.tail) || hasTripleNL rest

def containsStr (pat s : Str) : Bool := decide (pat <:+: s)

def nullArtifact : Str := "[](null)".data

/-- The text of a paragraph-number marker: `(n)`. -/
def markerText (ds : Str) : Str := '(' :: ds ++ [')']

/-- An `absnr` marker span holding exactly the text `(n)`. -/
def markerNode (attrs : List (String × Str)) (ds : Str) : HNode :=
  .elem "span" attrs [.text (markerText ds)]

/-- The span's class list selects the `absatzNumbers` rule: it has class
`absnr` and none of the classes matched by the higher-priority span
rules. -/
def absnrPure (attrs : List (String × Str)) : Bool :=
  hasClassA attrs "absnr".data && !hasClassA attrs "satz".data &&
    !hasClassA attrs "aufz".data && !hasClassA attrs "sidebar-inside".data &&
    !hasClassA attrs "sidebar-outside".data

/-- An element whose selected turndown rule keeps the converted children
inside its own replacement: everything except the two Randnummer sidebar
spans (which replace their content wholesale) and `br` (whose replacement
ignores content). -/
def contentTransparent (t : String) (attrs : List (String × Str)) : Bool :=
  !(t = "span" &&
      (hasClassA attrs "sidebar-outside".data || hasClassA attrs "sidebar-inside".data)) &&
    !(t = "br")

/-- The node contains, possibly nested below content-transparent elements,
an `absnr` marker span with text `(n)`. -/
inductive HoldsMarker (ds : Str) : HNode → Prop
  | here (attrs : List (String × Str)) :
      absnrPure attrs = true → HoldsMarker ds (markerNode attrs ds)
  | deeper (t : String) (attrs : List (String × Str)) (cs : List HNode) (c : HNode) :
      c ∈ cs → contentTransparent t attrs = true → HoldsMarker ds c →
      HoldsMarker ds (.elem t attrs cs)

/-- The `**(n)**` rendering of a marker. -/
def boldMarker (ds : Str) : Str := "**(".data ++ ds ++ ")**".data

def digitsOnly (ds : Str) : Bool := !ds.isEmpty && ds.all Char.isDigit

/-! ## Concrete inputs used by counterexamples and witnesses -/

/-- A rendered page whose text carries a denial phrase. -/
def domDenied : HNode :=
  .elem "html" []
    [.elem "body" [] [.text "Das Dokument kann nicht angezeigt werden.".data]]

/-- A rendered page with an empty body (no content container at all). -/
def domEmpty : HNode := .elem "html" [] [.elem "body" [] []]

/-- The URL read of an environment whose pages only carry well-formed
hrefs: the `URL` constructor succeeds and yields the `vpath` query
parameter. -/
def urlVpathTotal : Str → Except Str (Option Str) :=
  fun s => .ok (urlSearchParam s "vpath".data)

/-- Environment for the `beck:get_document` witness: the print view of
`v1` is a denial page, everything else is the empty page. -/
def envGetDoc : BeckEnv :=
  ⟨fun u => if u = printDocUrl "v1".data then .ok ⟨domDenied, u⟩ else .ok ⟨domEmpty, u⟩,
   urlVpathTotal⟩

/-- Environment for the `beck:search` witness: every navigation ends up
redirected to a document URL. -/
def envDirectHit : BeckEnv :=
  ⟨fun _ => .ok ⟨domEmpty, "https://beck-online.beck.de/Dokument?vpath=abc".data⟩,
   urlVpathTotal⟩

/-- Environment whose every navigation throws. -/
def envBoom : BeckEnv := ⟨fun _ => .error "boom".data, urlVpathTotal⟩

/-- Environment for the suggestions counterexample: the page body text is
the valid JSON document `null`. -/
def envSuggestNull : BeckEnv :=
  ⟨fun u => .ok ⟨.elem "html" [] [.elem "body" [] [.text "null".data]], u⟩,
   urlVpathTotal⟩

/-- Environment for the amended-suggestions witness: the page body text is
`{"values":[{"label":"Foo"}]}`. -/
def envSuggestFoo : BeckEnv :=
  ⟨fun u =>
    .ok ⟨.elem "html" []
      [.elem "body" [] [.text "\x7b\"values\":[\x7b\"label\":\"Foo\"\x7d]\x7d".data]], u⟩,
   urlVpathTotal⟩

/-- Search-results page whose single result row carries no title link:
the claim C7 predicts one `SearchHit` for it, the code produces none. -/
def cexSearchPage : HNode :=
  .elem "html" []
    [.elem "body" []
      [.elem "div" [("class", "treffer-wrapper".data)] [.text "stray row".data]]]

/-- A search-results page with two well-formed rows (used by the C7
witness checks). -/
def rowOf (title href ty : Str) : HNode :=
  .elem "div" [("class", "treffer-wrapper".data)]
    [.elem "div" [("class", "treffer-firstline-text".data)]
      [.elem "a" [("href", href)] [.text title]],
     .elem "span" [("class", "icon-container".data)]
      [.elem "i" [("title", ty)] []]]

def searchPageTwoRows : HNode :=
  .elem "html" []
    [.elem "body" []
      [rowOf "Erster".data "/Dokument?vpath=p1".data "Norm".data,
       rowOf "Zweiter".data "/Dokument?vpath=p2".data [],
       .elem "div" [("class", "treffer-wrapper".data)] [.text "broken".data]]]

/-- A search-results page whose single row has a non-empty title and the
href `":x"`, on which `new URL('https://beck-online.beck.de' + href)`
throws (invalid port). -/
def cexThrowPage : HNode :=
  .elem "html" [] [.elem "body" [] [rowOf "Dritter".data ":x".data "Norm".data]]

/-- URL read agreeing with the real constructor on the strings
`cexThrowPage` produces: `https://beck-online.beck.de:x` has an invalid
port, so the constructor throws `TypeError: Invalid URL`. -/
def urlThrowing : Str → Except Str (Option Str) :=
  fun s =>
    if s = beckOrigin ++ ":x".data then .error "Invalid URL".data
    else .ok (urlSearchParam s "vpath".data)

/-- Page for the C5 counterexample: an anchor whose `href` attribute value
embeds a newline-flanked `[](null)`; the anchor rule copies the href
verbatim into the markdown, the newline collapse runs before the artifact
deletion, and deleting the artifact then fuses two blank lines into a
four-newline run. -/
def cexNlPage : HNode :=
  .elem "html" []
    [.elem "body" []
      [.elem "div" [("class", "dokcontent".data)]
        [.elem "a" [("href", "x)\n\n[](null)\n\n(y".data)] [.text "t".data]]]]

/-- Page for the C4 counterexample: the content root contains the § 823
heading and both markers, but an earlier `h2.paragr` outside the content
root shadows the title. -/
def cexTitlePage : HNode :=
  .elem "html" []
    [.elem "body" []
      [.elem "h2" [("class", "paragr".data)] [.text "Andere Überschrift".data],
       .elem "div" [("id", "printcontent".data)]
        [.elem "div" [("class", "dokcontent".data)]
          [.elem "h2" [("class", "paragr".data)] [.text "§ 823 Schadensersatzpflicht".data],
           .elem "span" [("class", "absnr".data)] [.text "(1)".data],
           .elem "span" [("class", "absnr".data)] [.text "(2)".data]]]]]

/-- The scenario-A print-view page (used by the C4 witness). -/
def scenarioAPage : HNode :=
  .elem "html" []
    [.elem "head" [] [.elem "title" [] [.text "Fallback Title".data]],
     .elem "body" []
      [.elem "div" [("id", "printcontent".data)]
        [.elem "div" [("class", "dokcontent".data)]
          [.elem "h2" [("class", "paragr".data)] [.text "§ 823 Schadensersatzpflicht".data],
           .elem "span" [("class", "absnr".data)] [.text "(1)".data],
           .elem "span" [("class", "satz".data)]
            [.text "Wer vorsätzlich oder fahrlässig handelt.".data],
           .elem "span" [("class", "absnr".data)] [.text "(2)".data],
           .elem "span" [("class", "satz".data)]
            [.text "Die gleiche Verpflichtung trifft denjenigen.".data]]]]]

/-- Browser state for the C9 counterexample: an open session holding a
cached auth cookie. -/
def openBrowserState : BeckBrowserState :=
  { browser := some 0, page := some 0,
    authCookie := some ⟨"beck-online.auth".data, "x".data, [], [], -1⟩,
    isAuthenticated := true }

/-! # Theorems -/

/-! ## Generic list lemmas -/

theorem infix_map_iff {α β : Type} {f : α → β} {p : List β} {l : List α} :
    p <:+: l.map f ↔ ∃ s, s <:+: l ∧ s.map f = p := by
  constructor
  · rintro ⟨a, b, hab⟩
    have h1 : l.map f = a ++ (p ++ b) := by
      rw [← hab]; simp [List.append_assoc]
    rcases List.map_eq_append_iff.mp h1 with ⟨l1, l2, rfl, h2, h3⟩
    rcases List.map_eq_append_iff.mp h3 with ⟨l3, l4, rfl, h4, h5⟩
    exact ⟨l3, ⟨l1, l4, by simp [List.append_assoc]⟩, h4⟩
  · rintro ⟨s, hs, rfl⟩
    exact hs.map f

theorem infix_dropWhile_of_all {p l : Str} (q : Char → Bool)
    (hp : ∀ c ∈ p, q c = false) (h : p <:+: l) : p <:+: l.dropWhile q := by
  induction l with
  | nil => simpa using h
  | cons a r ih =>
    by_cases ha : q a = true
    · rw [List.dropWhile_cons_of_pos ha]
      rcases List.infix_cons_iff.mp h with hpre | htail
      · rcases List.prefix_cons_iff.mp hpre with rfl | ⟨t, rfl, _⟩
        · exact List.nil_infix
        · exact absurd ha (by simp [hp a (by simp)])
      · exact ih htail
    · rwa [List.dropWhile_cons_of_neg ha]

theorem infix_reverse_iff {p l : Str} : p.reverse <:+: l.reverse ↔ p <:+: l :=
  List.reverse_infix

theorem infix_jsTrim_of_all {p l : Str} (hp : ∀ c ∈ p, isWsChar c = false)
    (h : p <:+: l) : p <:+: jsTrim l := by
  unfold jsTrim
  rw [← infix_reverse_iff]
  simp only [List.reverse_reverse]
  apply infix_dropWhile_of_all isWsChar
  · intro c hc; exact hp c (List.mem_reverse.mp hc)
  · rw [infix_reverse_iff]
    exact infix_dropWhile_of_all isWsChar hp h

theorem infix_tdPostTrim_of_all {p l : Str} (hp : ∀ c ∈ p, isWsChar c = false)
    (h : p <:+: l) : p <:+: tdPostTrim l := by
  unfold tdPostTrim
  rw [← infix_reverse_iff]
  simp only [List.reverse_reverse]
  apply infix_dropWhile_of_all isWsChar
  · intro c hc; exact hp c (List.mem_reverse.mp hc)
  · rw [infix_reverse_iff]
    apply infix_dropWhile_of_all _ _ h
    intro c hc
    have := hp c hc
    simp only [isWsChar, Bool.or_eq_false_iff, decide_eq_false_iff_not] at this
    simp [this.1.1.1.1.2, this.1.1.1.2, this.1.1.2]

/-- An occurrence of `p` in `site ++ t` lies inside `t` whenever `p` cannot
start with any character of `site`. -/
theorem infix_append_right_of_head {p site t : Str}
    (h0 : ∀ c ∈ site, p.head? ≠ some c) (h : p <:+: site ++ t) : p <:+: t := by
  induction site with
  | nil => simpa using h
  | cons a r ih =>
    rcases List.infix_cons_iff.mp h with hpre | htail
    · rcases List.prefix_cons_iff.mp hpre with rfl | ⟨s, rfl, _⟩
      · exact List.nil_infix
      · exact absurd (rfl : (a :: s).head? = some a) (h0 a (by simp))
    · exact ih (fun c hc => h0 c (by simp [hc])) htail

theorem mem_of_mem_dropWhile {c : Char} {l : Str} {q : Char → Bool}
    (hc : c ∈ l) (hq : q c = false) : c ∈ l.dropWhile q := by
  induction l with
  | nil => simp at hc
  | cons a r ih =>
    by_cases ha : q a = true
    · rw [List.dropWhile_cons_of_pos ha]
      rcases List.mem_cons.mp hc with rfl | hr
      · rw [hq] at ha; exact absurd ha (by simp)
      · exact ih hr
    · rwa [List.dropWhile_cons_of_neg ha]

theorem jsTrim_ne_nil {l : Str} {c : Char} (hc : c ∈ l)
    (hq : isWsChar c = false) : jsTrim l ≠ [] := by
  unfold jsTrim
  intro h
  have h1 : c ∈ (l.dropWhile isWsChar) := mem_of_mem_dropWhile hc hq
  have h2 : c ∈ (l.dropWhile isWsChar).reverse := List.mem_reverse.mpr h1
  have h3 : c ∈ ((l.dropWhile isWsChar).reverse.dropWhile isWsChar) :=
    mem_of_mem_dropWhile h2 hq
  rw [← List.mem_reverse] at h3
  rw [h] at h3
  simp at h3

/-! ## Claim C1 -/

/-- Claim C1: `isAccessDenied` returns `true` exactly on the HTML strings
that contain some letter-case variant (a string whose character-wise
lowercasing equals the phrase) of one of the three known denial phrases as
a substring, and `false` on every string containing none; the check is a
pure case-insensitive substring match. -/
theorem isAccessDenied_characterization (html : Str) :
    isAccessDenied html = true ↔
      ∃ s, s <:+: html ∧
        (s.map jsLowerChar = denialPhrase1 ∨ s.map jsLowerChar = denialPhrase2 ∨
          s.map jsLowerChar = denialPhrase3) := by
  unfold isAccessDenied
  simp only [Bool.or_eq_true, decide_eq_true_eq]
  constructor
  · rintro ((h | h) | h)
    · rcases infix_map_iff.mp h with ⟨s, hs, he⟩
      exact ⟨s, hs, Or.inl he⟩
    · rcases infix_map_iff.mp h with ⟨s, hs, he⟩
      exact ⟨s, hs, Or.inr (Or.inl he)⟩
    · rcases infix_map_iff.mp h with ⟨s, hs, he⟩
      exact ⟨s, hs, Or.inr (Or.inr he)⟩
  · rintro ⟨s, hs, (he | he | he)⟩
    · exact Or.inl (Or.inl (infix_map_iff.mpr ⟨s, hs, he⟩))
    · exact Or.inl (Or.inr (infix_map_iff.mpr ⟨s, hs, he⟩))
    · exact Or.inr (infix_map_iff.mpr ⟨s, hs, he⟩)

/-! ## Claim C9 -/

/-- Counterexample to claim C9 as stated: on an open session holding a
cached auth cookie, `close()` does not clear the cookie field. -/
theorem closeBrowser_keeps_cookie :
    (closeBrowser openBrowserState).authCookie ≠ none := by decide

/-- Claim C9 (amended): `close()` on an open session clears the browser
handle, the page handle and the authenticated flag but retains the cached
auth cookie; calling it when already closed leaves the state unchanged,
and it is idempotent. -/
theorem closeBrowser_spec (s : BeckBrowserState) :
    (s.browser ≠ none →
      closeBrowser s =
        { browser := none, page := none, authCookie := s.authCookie,
          isAuthenticated := false }) ∧
    (s.browser = none → closeBrowser s = s) ∧
    closeBrowser (closeBrowser s) = closeBrowser s := by
  refine ⟨?_, ?_, ?_⟩
  · intro h
    simp [closeBrowser, Option.isSome_iff_ne_none.mpr h]
  · intro h
    simp [closeBrowser, h]
  · by_cases h : s.browser = none
    · simp [closeBrowser, h]
    · simp [closeBrowser, Option.isSome_iff_ne_none.mpr h]

theorem closeBrowser_spec_witness :
    closeBrowser openBrowserState =
      { browser := none, page := none,
        authCookie := openBrowserState.authCookie, isAuthenticated := false } ∧
    closeBrowser (closeBrowser openBrowserState) = closeBrowser openBrowserState :=
  ⟨(closeBrowser_spec openBrowserState).1 (by decide),
   (closeBrowser_spec openBrowserState).2.2⟩

/-! ## Claim C8 -/

/-- Claim C8: for every tool name, argument record and browser behavior
(including thrown exceptions), `handleBeckToolCall` returns a `ToolResult`:
a failure thrown inside any handler is converted into an error-flagged
result carrying the message, a successful dispatch is returned unchanged,
and a tool name not among the seven known Beck tools yields the
error-flagged `Unknown Beck tool` result. -/
theorem handleBeckToolCall_safe (toolName : Str) (args : BeckArgs) (env : BeckEnv) :
    (∀ e, dispatchBeck toolName args env = .error e →
      handleBeckToolCall toolName args env = errText ("Error: ".data ++ e)) ∧
    (∀ r, dispatchBeck toolName args env = .ok r →
      handleBeckToolCall toolName args env = r) ∧
    (toolName ∉ knownBeckTools →
      handleBeckToolCall toolName args env =
        errText ("Unknown Beck tool: ".data ++ toolName)) := by
  refine ⟨?_, ?_, ?_⟩
  · intro e h; simp [handleBeckToolCall, h]
  · intro r h; simp [handleBeckToolCall, h]
  · intro h
    simp only [knownBeckTools, List.mem_cons, List.not_mem_nil, or_false, not_or] at h
    obtain ⟨h1, h2, h3, h4, h5, h6, h7⟩ := h
    have hd : dispatchBeck toolName args env =
        .ok (errText ("Unknown Beck tool: ".data ++ toolName)) := by
      unfold dispatchBeck
      rw [if_neg h1, if_neg h2, if_neg h3, if_neg h4, if_neg h5, if_neg h6, if_neg h7]
    simp [handleBeckToolCall, hd]

theorem handleBeckToolCall_safe_witness :
    handleBeckToolCall "beck:search".data {} envBoom =
      errText ("Error: ".data ++ "boom".data) ∧
    handleBeckToolCall "nosuch".data {} envBoom =
      errText ("Unknown Beck tool: ".data ++ "nosuch".data) :=
  ⟨(handleBeckToolCall_safe "beck:search".data {} envBoom).1 "boom".data rfl,
   (handleBeckToolCall_safe "nosuch".data {} envBoom).2.2 (by decide)⟩

/-! ## Claim C3 -/

/-- Claim C3: when the post-redirect final URL of a `beck:search` fetch
contains the document-navigation marker `/Dokument?` and carries a
non-empty `vpath` query parameter `X`, the handler returns a non-error
result whose text is exactly the one-element JSON list
`[{title: "Direct Hit (Redirected)", type: "Unknown", vpath: X,
link: finalUrl}]` — independently of the fetched page content, i.e.
without parsing a hit list. -/
theorem handleSearch_direct_hit (env : BeckEnv) (args : BeckArgs)
    (o : FetchOutcome) (X : Str)
    (hf : env.fetch
      (searchUrl (searchPageOf args) args.query args.category args.only_available) =
        .ok o)
    (hd : "/Dokument?".data <:+: o.finalUrl)
    (hv : urlSearchParam o.finalUrl "vpath".data = some X)
    (hX : X ≠ []) :
    handleSearch env args = .ok (okText (directHitJson X o.finalUrl)) := by
  have hie : X.isEmpty = false := by
    cases X with
    | nil => exact absurd rfl hX
    | cons a r => rfl
  simp only [handleSearch, hf]
  simp only [bind, Except.bind, hd, decide_eq_true_eq, if_true, hv, hie,
    Bool.not_false, if_pos]
  rfl

theorem handleSearch_direct_hit_witness :
    handleSearch envDirectHit { query := "q".data } =
      .ok (okText (directHitJson "abc".data
        "https://beck-online.beck.de/Dokument?vpath=abc".data)) :=
  handleSearch_direct_hit envDirectHit { query := "q".data }
    ⟨domEmpty, "https://beck-online.beck.de/Dokument?vpath=abc".data⟩ "abc".data
    rfl (by decide) (by decide) (by decide)

/-! ## Claim C2 -/

/-- Claim C2: on a `beck:get_document` call with effective identifier `v`
and fetched print view `o`, access denial is checked before conversion and
before honoring the format: a denial page yields the error-flagged
access-denied message naming `v` regardless of the requested format; with
no denial and `format: 'html'` the raw markup is returned unconverted and
non-error; otherwise an empty trimmed converted body yields the
error-flagged empty-content message, which differs from the access-denied
message. -/
theorem handleGetDocument_policy (env : BeckEnv) (args : BeckArgs) (v : Str)
    (o : FetchOutcome)
    (hv : effVpath env args.vpath = .ok v)
    (hf : env.fetch (printDocUrl v) = .ok o) :
    (isAccessDenied (renderHtml o.dom) = true →
      handleGetDocument env args = .ok (errText (accessDeniedMsg v))) ∧
    (isAccessDenied (renderHtml o.dom) = false → args.format = some "html".data →
      handleGetDocument env args = .ok (okText (renderHtml o.dom))) ∧
    (isAccessDenied (renderHtml o.dom) = false → args.format ≠ some "html".data →
      (jsTrim (htmlToMarkdown o.dom).body).isEmpty = true →
      handleGetDocument env args = .ok (errText (emptyContentMsg v))) ∧
    accessDeniedMsg v ≠ emptyContentMsg v := by
  refine ⟨?_, ?_, ?_, ?_⟩
  · intro hden
    simp only [handleGetDocument, hv, hf, bind, Except.bind, hden, if_true]
    rfl
  · intro hden hfmt
    simp only [handleGetDocument, hv, hf, bind, Except.bind, hden,
      Bool.false_eq_true, if_false, hfmt, if_pos]
    rfl
  · intro hden hfmt hempty
    simp only [handleGetDocument, hv, hf, bind, Except.bind, hden,
      Bool.false_eq_true, if_false, hempty, if_true, if_neg hfmt]
    rfl
  · intro h
    have h2 := congrArg List.length h
    have l1 : ("ERROR: Access Denied for vpath: ".data).length = 32 := by decide
    have l2 : ("ERROR: Document content empty or access denied (vpath: ".data).length = 55 :=
      by decide
    have l3 : (").".data).length = 2 := by decide
    simp only [accessDeniedMsg, emptyContentMsg, List.length_append, l1, l2, l3] at h2
    omega

theorem handleGetDocument_policy_witness :
    handleGetDocument envGetDoc { vpath := "v1".data } =
      .ok (errText (accessDeniedMsg "v1".data)) ∧
    handleGetDocument envGetDoc { vpath := "v2".data, format := some "html".data } =
      .ok (okText (renderHtml domEmpty)) ∧
    handleGetDocument envGetDoc { vpath := "v2".data } =
      .ok (errText (emptyContentMsg "v2".data)) ∧
    accessDeniedMsg "v2".data ≠ emptyContentMsg "v2".data :=
  ⟨(handleGetDocument_policy envGetDoc { vpath := "v1".data } "v1".data
      ⟨domDenied, printDocUrl "v1".data⟩ rfl rfl).1 (by decide),
   (handleGetDocument_policy envGetDoc { vpath := "v2".data, format := some "html".data }
      "v2".data ⟨domEmpty, printDocUrl "v2".data⟩ rfl rfl).2.1 (by decide) rfl,
   (handleGetDocument_policy envGetDoc { vpath := "v2".data } "v2".data
      ⟨domEmpty, printDocUrl "v2".data⟩ rfl rfl).2.2.1 (by decide)
      (by decide) (by decide),
   (handleGetDocument_policy envGetDoc { vpath := "v2".data } "v2".data
      ⟨domEmpty, printDocUrl "v2".data⟩ rfl rfl).2.2.2⟩

/-! ## Claim C7 -/

theorem searchHitsGo_eq (u : Str → Except Str (Option Str)) (row : HNode)
    (rest : List HNode) (acc : List SearchHit) :
    searchHitsGo u acc (row :: rest) =
      match rowHit u row with
      | .error e => .error e
      | .ok (some h) => searchHitsGo u (acc ++ [h]) rest
      | .ok none => searchHitsGo u acc rest := by
  simp only [searchHitsGo, rowHit]
  cases hh : (rowTitleAnchors row).head? >>= (·.attr "href") with
  | none => rfl
  | some h =>
    dsimp only
    by_cases h1 :
        !(jsTrim (textContentList (rowTitleAnchors row))).isEmpty && !h.isEmpty
    · rw [if_pos h1, if_pos h1]
      cases hu : u (beckOrigin ++ h) with
      | error e => rfl
      | ok vo =>
        cases vo with
        | none => rfl
        | some v =>
          dsimp only
          by_cases h2 : !v.isEmpty
          · simp [h2]
          · simp [h2]
    · rw [if_neg h1, if_neg h1]

theorem searchHitsGo_ok (u : Str → Except Str (Option Str)) :
    ∀ (rows : List HNode) (acc : List SearchHit),
      (∀ row ∈ rows, ∃ o, rowHit u row = .ok o) →
      searchHitsGo u acc rows =
        .ok (acc ++ rows.filterMap fun r => Option.join (rowHit u r).toOption) := by
  intro rows
  induction rows with
  | nil => intro acc _; simp [searchHitsGo]
  | cons row rest ih =>
    intro acc hall
    obtain ⟨o, ho⟩ := hall row (by simp)
    rw [searchHitsGo_eq, ho]
    have hrest : ∀ r ∈ rest, ∃ o2, rowHit u r = .ok o2 :=
      fun r hr => hall r (by simp [hr])
    cases o with
    | none =>
      dsimp only
      rw [ih acc hrest, List.filterMap_cons]
      simp [ho, Except.toOption]
    | some h =>
      dsimp only
      rw [ih (acc ++ [h]) hrest, List.filterMap_cons]
      simp [ho, Except.toOption]

theorem searchHitsGo_error (u : Str → Except Str (Option Str)) :
    ∀ (pre : List HNode) (row : HNode) (post : List HNode)
      (acc : List SearchHit) (e : Str),
      (∀ r ∈ pre, ∃ o, rowHit u r = .ok o) → rowHit u row = .error e →
      searchHitsGo u acc (pre ++ row :: post) = .error e := by
  intro pre
  induction pre with
  | nil =>
    intro row post acc e _ herr
    rw [List.nil_append, searchHitsGo_eq, herr]
  | cons r0 rest ih =>
    intro row post acc e hall herr
    obtain ⟨o, ho⟩ := hall r0 (by simp)
    rw [List.cons_append, searchHitsGo_eq, ho]
    have hrest : ∀ r ∈ rest, ∃ o2, rowHit u r = .ok o2 :=
      fun r hr => hall r (by simp [hr])
    cases o with
    | none => exact ih row post acc e hrest herr
    | some h => exact ih row post (acc ++ [h]) e hrest herr

/-- Counterexample to claim C7 as stated: a search-results page with
exactly one result-row element that carries no title link yields an empty
hit list, not one `SearchHit` per row. -/
theorem searchHits_missing_row :
    (docSelect (fun n => n.isElemWithClass "treffer-wrapper".data) cexSearchPage).length
        = 1 ∧
    searchHits urlVpathTotal cexSearchPage = .ok [] := ⟨rfl, rfl⟩

/-- Claim C7 (amended): the result-row elements of a search-results page
are processed in source page order through the per-row extraction
`rowHit`.  When the `URL` constructor succeeds on every guarded row's
href, the emitted hits are exactly the rows' extractions in order: a row
yields one `SearchHit` precisely when its title link has non-empty text,
a non-empty `href`, and a non-empty `vpath` query parameter; the hit's
type label is the first non-empty of `i[title]`, `svg[title]`,
`i[data-original-title]` on the row's icon container, defaulting to
`"Unknown"`; rows are never re-sorted and rows failing those conditions
yield nothing.  But when the constructor throws on some row's href (all
rows before it succeeding), the exception aborts the scan and the call
propagates that error instead of returning any hit list. -/
theorem searchHits_characterization (u : Str → Except Str (Option Str))
    (root : HNode) :
    ((∀ row ∈ docSelect (fun n => n.isElemWithClass "treffer-wrapper".data) root,
        ∃ o, rowHit u row = .ok o) →
      searchHits u root =
        .ok ((docSelect (fun n => n.isElemWithClass "treffer-wrapper".data)
            root).filterMap
          fun r => Option.join (rowHit u r).toOption)) ∧
    (∀ (pre : List HNode) (row : HNode) (post : List HNode) (e : Str),
      docSelect (fun n => n.isElemWithClass "treffer-wrapper".data) root =
        pre ++ row :: post →
      (∀ r ∈ pre, ∃ o, rowHit u r = .ok o) → rowHit u row = .error e →
      searchHits u root = .error e) := by
  constructor
  · intro hall
    unfold searchHits
    rw [searchHitsGo_ok u _ [] hall]
    simp
  · intro pre row post e hsplit hpre herr
    unfold searchHits
    rw [hsplit]
    exact searchHitsGo_error u pre row post [] e hpre herr

theorem searchHits_characterization_witness :
    searchHits urlVpathTotal searchPageTwoRows =
      .ok [⟨"Erster".data, "Norm".data, "p1".data, "/Dokument?vpath=p1".data⟩,
           ⟨"Zweiter".data, "Unknown".data, "p2".data, "/Dokument?vpath=p2".data⟩] ∧
    searchHits urlThrowing cexThrowPage = .error "Invalid URL".data := by
  constructor
  · have h := (searchHits_characterization urlVpathTotal searchPageTwoRows).1
      (by
        intro row hrow
        have hrows : row ∈
            [rowOf "Erster".data "/Dokument?vpath=p1".data "Norm".data,
             rowOf "Zweiter".data "/Dokument?vpath=p2".data [],
             HNode.elem "div" [("class", "treffer-wrapper".data)]
               [.text "broken".data]] := hrow
        simp only [List.mem_cons, List.not_mem_nil, or_false] at hrows
        rcases hrows with rfl | rfl | rfl
        · exact ⟨_, rfl⟩
        · exact ⟨_, rfl⟩
        · exact ⟨_, rfl⟩)
    exact h.trans rfl
  · exact (searchHits_characterization urlThrowing cexThrowPage).2 []
      (rowOf "Dritter".data ":x".data "Norm".data) [] "Invalid URL".data rfl
      (fun r hr => absurd hr (List.not_mem_nil r)) rfl

/-! ## Claim C10 -/

/-- Counterexample to claim C10 as stated: the page-body text `null` is
valid JSON (`JSON.parse` succeeds), yet the handler returns the
error-flagged parse-failure result, because reading `.values` on `null`
throws inside the same `try`. -/
theorem handleGetSuggestions_null_counterexample :
    jsonParse "null".data = some .null ∧
    handleGetSuggestions envSuggestNull { term := "f".data } =
      .ok (errText "Failed to parse suggestions JSON.".data) := ⟨rfl, rfl⟩

/-- Claim C10 (amended): `handleGetSuggestions` returns the error-flagged
parse-failure result exactly when `JSON.parse` on the page-body text fails
or when the subsequent label extraction throws: the parsed value is
`null`; or it is an array, so `data.values` finds the inherited
`Array.prototype.values` function, which is truthy but has no `.map`; or
its own `values` field is truthy but not an array; or a `null` array
element is dereferenced.  When the body parses to a non-`null` value on
which the `values` read resolves to `undefined`, the call succeeds with
the empty suggestion list `[]`. -/
theorem handleGetSuggestions_policy (env : BeckEnv) (args : BeckArgs)
    (o : FetchOutcome) (hf : env.fetch (suggestUrl args.term) = .ok o) :
    (jsonParse (bodyTextOf o.dom) = none →
      handleGetSuggestions env args =
        .ok (errText "Failed to parse suggestions JSON.".data)) ∧
    (∀ data, jsonParse (bodyTextOf o.dom) = some data →
      suggestionLabels data = .error () →
      handleGetSuggestions env args =
        .ok (errText "Failed to parse suggestions JSON.".data)) ∧
    (∀ data ls, jsonParse (bodyTextOf o.dom) = some data →
      suggestionLabels data = .ok ls →
      handleGetSuggestions env args = .ok (okText (labelsJsonPretty ls))) ∧
    (∀ data, jsonParse (bodyTextOf o.dom) = some data → data ≠ JVal.null →
      jsGetProp data "values".data = .undefined →
      handleGetSuggestions env args = .ok (okText "[]".data)) ∧
    (∀ xs, jsonParse (bodyTextOf o.dom) = some (JVal.arr xs) →
      handleGetSuggestions env args =
        .ok (errText "Failed to parse suggestions JSON.".data)) := by
  refine ⟨?_, ?_, ?_, ?_, ?_⟩
  · intro hp
    simp only [handleGetSuggestions, hf, bind, Except.bind, hp]
    rfl
  · intro data hp hs
    simp only [handleGetSuggestions, hf, bind, Except.bind, hp, hs]
    rfl
  · intro data ls hp hs
    simp only [handleGetSuggestions, hf, bind, Except.bind, hp, hs]
    rfl
  · intro data hp hnn hl
    have hs : suggestionLabels data = .ok [] := by
      cases data with
      | null => exact absurd rfl hnn
      | bool b => simp [suggestionLabels, hl]
      | num s => simp [suggestionLabels, hl]
      | str s => simp [suggestionLabels, hl]
      | arr xs => simp [jsGetProp] at hl
      | obj fs => simp [suggestionLabels, hl]
    simp only [handleGetSuggestions, hf, bind, Except.bind, hp, hs]
    rfl
  · intro xs hp
    have hs : suggestionLabels (JVal.arr xs) = .error () := rfl
    simp only [handleGetSuggestions, hf, bind, Except.bind, hp, hs]
    rfl

theorem handleGetSuggestions_policy_witness :
    handleGetSuggestions envSuggestFoo { term := "f".data } =
      .ok (okText (labelsJsonPretty [some (.str "Foo".data)])) :=
  (handleGetSuggestions_policy envSuggestFoo { term := "f".data }
      ⟨.elem "html" []
        [.elem "body" [] [.text "\x7b\"values\":[\x7b\"label\":\"Foo\"\x7d]\x7d".data]],
       suggestUrl "f".data⟩ rfl).2.2.1
    (.obj [("values".data, .arr [.obj [("label".data, .str "Foo".data)]])])
    [some (.str "Foo".data)] rfl rfl

/-! ## Claim C6 -/

/-- Anchors are `meaningfulWhenBlank` in turndown, hence never handled by
the blank rule. -/
theorem anchor_not_blank (attrs : List (String × Str)) (cs : List HNode) :
    isBlankNode (.elem "a" attrs cs) = false := by
  simp [isBlankNode, meaningfulWhenBlankTags]

/-- Every anchor element is converted by the custom `internalLinks` rule
applied to its converted content and its `href` attribute. -/
theorem tdNode_anchor (attrs : List (String × Str)) (cs : List HNode) :
    tdNode (.elem "a" attrs cs) =
      anchorReplacement (tdList [] cs) (getAttrL attrs "href") := by
  conv_lhs => rw [tdNode]
  simp +decide [anchor_not_blank attrs cs]

/-- Counterexample to claim C6 as stated: an anchor whose `href` attribute
is present but empty is degraded to its content (the code's `!href` test
also catches the empty string), whereas the claim files it under "all
other anchors" and predicts the link form `[t]()`. -/
theorem anchor_empty_href_counterexample :
    tdNode (.elem "a" [("href", [])] [.text "t".data]) = "t".data ∧
    "t".data ≠ "[t]()".data := by
  refine ⟨?_, by decide⟩
  rw [tdNode_anchor]
  decide

/-- Claim C6 (amended): for every anchor element, if its `href` attribute
is absent, empty, or the literal string `null`, the anchor renders as its
converted content only, with no link wrapper (in particular never as
`[text](null)`); if its `href` is root-relative it renders as a markdown
link whose target is the href prefixed with the fixed origin
`https://beck-online.beck.de`; every other anchor renders as the standard
`[text](href)`. -/
theorem anchor_rendering (attrs : List (String × Str)) (cs : List HNode) :
    (getAttrL attrs "href" = none ∨ getAttrL attrs "href" = some [] ∨
        getAttrL attrs "href" = some "null".data →
      tdNode (.elem "a" attrs cs) = tdList [] cs) ∧
    (∀ h, getAttrL attrs "href" = some h → h ≠ [] → h ≠ "null".data →
      h.head? = some '/' →
      tdNode (.elem "a" attrs cs) =
        '[' :: tdList [] cs ++ ']' :: '(' :: beckOrigin ++ h ++ [')']) ∧
    (∀ h, getAttrL attrs "href" = some h → h ≠ [] → h ≠ "null".data →
      h.head? ≠ some '/' →
      tdNode (.elem "a" attrs cs) =
        '[' :: tdList [] cs ++ ']' :: '(' :: h ++ [')']) := by
  rw [tdNode_anchor]
  refine ⟨?_, ?_, ?_⟩
  · rintro (hh | hh | hh) <;> rw [hh] <;> simp [anchorReplacement]
  · intro h hh hne hnull hslash
    rw [hh]
    have hie : h.isEmpty = false := by
      cases h with
      | nil => exact absurd rfl hne
      | cons a r => rfl
    simp [anchorReplacement, hie, hnull, hslash]
  · intro h hh hne hnull hslash
    rw [hh]
    have hie : h.isEmpty = false := by
      cases h with
      | nil => exact absurd rfl hne
      | cons a r => rfl
    simp [anchorReplacement, hie, hnull, hslash]

theorem anchor_rendering_witness :
    tdNode (.elem "a" [] [.text "x".data]) = "x".data ∧
    tdNode (.elem "a" [("href", "/Doc".data)] [.text "x".data]) =
      "[x](https://beck-online.beck.de/Doc)".data ∧
    tdNode (.elem "a" [("href", "https://e.com".data)] [.text "x".data]) =
      "[x](https://e.com)".data :=
  ⟨((anchor_rendering [] [.text "x".data]).1 (Or.inl rfl)).trans (by decide),
   ((anchor_rendering [("href", "/Doc".data)] [.text "x".data]).2.1 "/Doc".data
      rfl (by decide) (by decide) rfl).trans (by decide),
   ((anchor_rendering [("href", "https://e.com".data)] [.text "x".data]).2.2
      "https://e.com".data rfl (by decide) (by decide) (by decide)).trans (by decide)⟩

/-! ## Claim C5 -/

theorem startsNL_collapseGo_two (l : Str) : ∀ k, 2 ≤ k →
    startsNL (collapseGo k l) = false := by
  induction l with
  | nil => intro k _; rfl
  | cons c r ih =>
    intro k hk
    by_cases hc : c = '\n'
    · rw [collapseGo, if_pos hc, if_neg (by omega)]
      exact ih k hk
    · rw [collapseGo, if_neg hc]
      simp [startsNL, hc]

theorem hasTripleNL_collapseGo (l : Str) : ∀ k, hasTripleNL (collapseGo k l) = false := by
  induction l with
  | nil => intro k; rfl
  | cons c r ih =>
    intro k
    by_cases hc : c = '\n'
    · subst hc
      match k with
      | 0 =>
        rw [collapseGo, if_pos rfl, if_pos (by norm_num)]
        cases r with
        | nil => decide
        | cons d r' =>
          by_cases hd : d = '\n'
          · subst hd
            rw [collapseGo, if_pos rfl, if_pos (by norm_num)]
            have hX : startsNL (collapseGo 2 r') = false :=
              startsNL_collapseGo_two r' 2 le_rfl
            have htail : hasTripleNL ('\n' :: collapseGo 2 r') = false := by
              have h5 := ih (0 + 1)
              rw [collapseGo, if_pos rfl, if_pos (by norm_num)] at h5
              exact h5
            rw [hasTripleNL]
            simp [startsNL, htail]
            simpa [startsNL] using hX
          · rw [collapseGo, if_neg hd]
            have htail : hasTripleNL (d :: collapseGo 0 r') = false := by
              have h5 := ih (0 + 1)
              rw [collapseGo, if_neg hd] at h5
              exact h5
            rw [hasTripleNL]
            simp [startsNL, hd, htail]
      | 1 =>
        rw [collapseGo, if_pos rfl, if_pos (by norm_num)]
        have hX : startsNL (collapseGo 2 r) = false :=
          startsNL_collapseGo_two r 2 le_rfl
        rw [hasTripleNL]
        simp [hX, ih (1 + 1)]
      | (j + 2) =>
        rw [collapseGo, if_pos rfl, if_neg (by omega)]
        exact ih (j + 2)
    · rw [collapseGo, if_neg hc, hasTripleNL]
      simp [hc, ih 0]

theorem hasTripleNL_iff (l : Str) :
    hasTripleNL l = true ↔ ['\n', '\n', '\n'] <:+: l := by
  induction l with
  | nil => simp [hasTripleNL]
  | cons c rest ih =>
    rw [hasTripleNL]
    constructor
    · intro h
      rcases Bool.or_eq_true_iff.mp h with h1 | h1
      · rcases Bool.and_eq_true_iff.mp h1 with ⟨h2, h4⟩
        rcases Bool.and_eq_true_iff.mp h2 with ⟨h3, h5⟩
        have hc : c = '\n' := decide_eq_true_eq.mp h3
        cases rest with
        | nil => simp [startsNL] at h5
        | cons d rest2 =>
          have hd : d = '\n' := by simpa [startsNL] using h5
          cases rest2 with
          | nil => simp [startsNL] at h4
          | cons e rest3 =>
            have he : e = '\n' := by simpa [startsNL] using h4
            subst hc; subst hd; subst he
            exact ⟨[], rest3, rfl⟩
      · exact List.infix_cons_iff.mpr (Or.inr (ih.mp h1))
    · intro h
      rcases List.infix_cons_iff.mp h with hpre | htail
      · obtain ⟨t, ht⟩ := hpre
        have ht2 : '\n' :: '\n' :: '\n' :: t = c :: rest := ht
        injection ht2 with hc hrest
        subst hc
        rw [← hrest]
        simp [startsNL, hasTripleNL]
      · simp [ih.mpr htail]

theorem jsTrim_isInfix (l : Str) : jsTrim l <:+: l := by
  unfold jsTrim
  have h1 : (l.dropWhile isWsChar) <:+ l := List.dropWhile_suffix isWsChar
  have h2 : ((l.dropWhile isWsChar).reverse.dropWhile isWsChar) <:+
      (l.dropWhile isWsChar).reverse := List.dropWhile_suffix isWsChar
  have h3 : ((l.dropWhile isWsChar).reverse.dropWhile isWsChar).reverse <+:
      (l.dropWhile isWsChar) := by
    have h4 := List.reverse_prefix.mpr h2
    rwa [List.reverse_reverse] at h4
  exact h3.isInfix.trans h1.isInfix

theorem noTriple_of_infix {p l : Str} (h : p <:+: l)
    (hl : hasTripleNL l = false) : hasTripleNL p = false := by
  by_contra hp
  have hp2 : hasTripleNL p = true := by
    cases hx : hasTripleNL p with
    | false => exact absurd hx hp
    | true => rfl
  have := (hasTripleNL_iff l).mpr (((hasTripleNL_iff p).mp hp2).trans h)
  rw [hl] at this
  exact Bool.false_ne_true this

theorem deleteNullArt_of_not_contains :
    ∀ s : Str, containsStr nullArtifact s = false → deleteNullArt s = s := by
  intro s
  induction s using deleteNullArt.induct with
  | case1 rest ih =>
    intro h
    exfalso
    have h4 : nullArtifact <:+:
        '[' :: ']' :: '(' :: 'n' :: 'u' :: 'l' :: 'l' :: ')' :: rest :=
      ⟨[], rest, rfl⟩
    rw [containsStr] at h
    exact (of_decide_eq_false h) h4
  | case2 c rest hne ih =>
    intro h
    have h2 : containsStr nullArtifact rest = false := by
      cases hx : containsStr nullArtifact rest with
      | false => rfl
      | true =>
        exfalso
        rw [containsStr] at hx
        have h3 : nullArtifact <:+: c :: rest :=
          List.infix_cons_iff.mpr (Or.inr (of_decide_eq_true hx))
        rw [containsStr] at h
        exact (of_decide_eq_false h) h3
    rw [deleteNullArt, ih h2]
    exact hne
  | case3 => intro _; rfl

set_option maxHeartbeats 4000000 in
/-- Counterexample to claim C5 as stated: converting `cexNlPage` (an
anchor whose href embeds a newline-flanked `[](null)`) produces a body
with a run of four consecutive newlines, because the `[](null)` deletion
runs after the newline collapse and fuses two blank lines. -/
theorem htmlToMarkdown_triple_newline_counterexample :
    hasTripleNL (htmlToMarkdown cexNlPage).body = true := by decide

/-- Claim C5 (amended): the newline-collapse step guarantees that the
intermediate markdown has no run of three or more consecutive newlines; on
every HTML input whose collapsed intermediate contains no occurrence of
the literal `[](null)` (so the later deletion step is the identity), the
final body has no such run either.  The deletion step, which runs after
the collapse, can otherwise reintroduce longer runs. -/
theorem htmlToMarkdown_no_triple_newline (root : HNode)
    (h : containsStr nullArtifact
        (collapseNewlines (rnRewrite (tdRun (contentChildren root)))) = false) :
    hasTripleNL (collapseNewlines (rnRewrite (tdRun (contentChildren root)))) = false ∧
    hasTripleNL (htmlToMarkdown root).body = false := by
  have h1 : hasTripleNL
      (collapseNewlines (rnRewrite (tdRun (contentChildren root)))) = false :=
    hasTripleNL_collapseGo _ 0
  refine ⟨h1, ?_⟩
  have hbody : (htmlToMarkdown root).body =
      jsTrim (deleteNullArt (collapseNewlines (rnRewrite (tdRun (contentChildren root))))) := by
    simp only [htmlToMarkdown]
  rw [hbody, deleteNullArt_of_not_contains _ h]
  exact noTriple_of_infix (jsTrim_isInfix _) h1

set_option maxHeartbeats 4000000 in
theorem htmlToMarkdown_no_triple_newline_witness :
    containsStr nullArtifact
        (collapseNewlines (rnRewrite (tdRun (contentChildren scenarioAPage)))) = false ∧
    hasTripleNL (htmlToMarkdown scenarioAPage).body = false :=
  ⟨by decide, (htmlToMarkdown_no_triple_newline scenarioAPage (by decide)).2⟩

/-! ## Claim C4 -/

theorem infix_append_left {p X : Str} (Y : Str) (h : p <:+: X) : p <:+: X ++ Y := by
  obtain ⟨u, v, huv⟩ := h
  exact ⟨u, v ++ Y, by rw [← huv]; simp⟩

theorem infix_append_right {p X : Str} (W : Str) (h : p <:+: X) : p <:+: W ++ X := by
  obtain ⟨u, v, huv⟩ := h
  exact ⟨W ++ u, v, by rw [← huv]; simp⟩

theorem infix_cons_right {p X : Str} (c : Char) (h : p <:+: X) : p <:+: c :: X :=
  List.infix_cons_iff.mpr (Or.inr h)

theorem boldMarker_mem {ds : Str} (hd : digitsOnly ds = true) :
    ∀ c ∈ boldMarker ds, c = '*' ∨ c = '(' ∨ c = ')' ∨ c.isDigit = true := by
  intro c hc
  rcases Bool.and_eq_true_iff.mp hd with ⟨_, hall⟩
  simp only [boldMarker, List.mem_append, List.mem_cons] at hc
  rcases hc with ((h | h | h | h) | h) | (h | h | h)
  · exact Or.inl h
  · exact Or.inl h
  · exact Or.inr (Or.inl h)
  · simp at h
  · exact Or.inr (Or.inr (Or.inr (List.all_eq_true.mp hall c h)))
  · exact Or.inr (Or.inr (Or.inl h))
  · exact Or.inl h
  · exact Or.inl (by simpa using h)

theorem digit_bounds {c : Char} (h : c.isDigit = true) : 48 ≤ c.toNat ∧ c.toNat ≤ 57 := by
  simp only [Char.isDigit, Bool.and_eq_true_iff, decide_eq_true_eq] at h
  exact ⟨h.1, h.2⟩

theorem boldMarker_not_nl {ds : Str} (hd : digitsOnly ds = true) :
    ∀ c ∈ boldMarker ds, c ≠ '\n' := by
  intro c hc
  rcases boldMarker_mem hd c hc with h | h | h | h
  · subst h; decide
  · subst h; decide
  · subst h; decide
  · have h2 := digit_bounds h
    intro h3
    subst h3
    exact absurd h2 (by decide)

theorem boldMarker_not_ws {ds : Str} (hd : digitsOnly ds = true) :
    ∀ c ∈ boldMarker ds, isWsChar c = false := by
  intro c hc
  rcases boldMarker_mem hd c hc with h | h | h | h
  · subst h; decide
  · subst h; decide
  · subst h; decide
  · have h2 := digit_bounds h
    simp only [isWsChar, Bool.or_eq_false_iff, decide_eq_false_iff_not]
    refine ⟨⟨⟨⟨⟨?_, ?_⟩, ?_⟩, ?_⟩, ?_⟩, ?_⟩ <;>
      (intro h3; subst h3; exact absurd h2 (by decide))

theorem boldMarker_head {ds : Str} : (boldMarker ds).head? = some '*' := rfl

theorem boldMarker_no_bracket {ds : Str} (hd : digitsOnly ds = true) :
    ∀ c ∈ boldMarker ds, c ≠ '[' ∧ c ≠ ']' := by
  intro c hc
  rcases boldMarker_mem hd c hc with h | h | h | h
  · subst h; exact ⟨by decide, by decide⟩
  · subst h; exact ⟨by decide, by decide⟩
  · subst h; exact ⟨by decide, by decide⟩
  · have h2 := digit_bounds h
    constructor <;> (intro h3; subst h3; exact absurd h2 (by decide))

theorem infix_trimNLLeft {p l : Str} (hnl : ∀ c ∈ p, c ≠ '\n') (h : p <:+: l) :
    p <:+: trimNLLeft l := by
  unfold trimNLLeft
  exact infix_dropWhile_of_all _ (fun c hc => decide_eq_false (hnl c hc)) h

theorem infix_trimNLRight {p l : Str} (hnl : ∀ c ∈ p, c ≠ '\n') (h : p <:+: l) :
    p <:+: trimNLRight l := by
  unfold trimNLRight
  rw [← infix_reverse_iff]
  simp only [List.reverse_reverse]
  exact infix_dropWhile_of_all _
    (fun c hc => decide_eq_false (hnl c (List.mem_reverse.mp hc)))
    (infix_reverse_iff.mpr h)

theorem infix_tdJoin_left {p a : Str} (b : Str) (hnl : ∀ c ∈ p, c ≠ '\n')
    (h : p <:+: a) : p <:+: tdJoin a b := by
  unfold tdJoin
  exact infix_append_left _ (infix_append_left _ (infix_trimNLRight hnl h))

theorem infix_tdJoin_right {p b : Str} (a : Str) (hnl : ∀ c ∈ p, c ≠ '\n')
    (h : p <:+: b) : p <:+: tdJoin a b := by
  unfold tdJoin
  exact infix_append_right _ (infix_trimNLLeft hnl h)

theorem infix_tdList {p : Str} (hnl : ∀ c ∈ p, c ≠ '\n') :
    ∀ (cs : List HNode) (acc : Str),
      ((∃ c ∈ cs, p <:+: tdNode c) ∨ p <:+: acc) → p <:+: tdList acc cs := by
  intro cs
  induction cs with
  | nil =>
    intro acc h
    rcases h with ⟨c, hc, _⟩ | h
    · simp at hc
    · simpa [tdList] using h
  | cons n rest ih =>
    intro acc h
    rw [tdList]
    rcases h with ⟨c, hc, hin⟩ | h
    · rcases List.mem_cons.mp hc with rfl | hc2
      · exact ih _ (Or.inr (infix_tdJoin_right acc hnl hin))
      · exact ih _ (Or.inl ⟨c, hc2, hin⟩)
    · exact ih _ (Or.inr (infix_tdJoin_left _ hnl h))

theorem escChar_eq_single {c : Char}
    (h : c = '(' ∨ c = ')' ∨ c.isDigit = true) : escChar c = [c] := by
  unfold escChar
  rw [if_neg]
  simp only [Bool.or_eq_true, decide_eq_true_eq, not_or]
  rcases h with rfl | rfl | h
  · refine ⟨⟨⟨⟨⟨?_, ?_⟩, ?_⟩, ?_⟩, ?_⟩, ?_⟩ <;> decide
  · refine ⟨⟨⟨⟨⟨?_, ?_⟩, ?_⟩, ?_⟩, ?_⟩, ?_⟩ <;> decide
  · have h2 := digit_bounds h
    refine ⟨⟨⟨⟨⟨?_, ?_⟩, ?_⟩, ?_⟩, ?_⟩, ?_⟩ <;>
      (intro h3; subst h3; exact absurd h2 (by decide))

theorem escGlobal_eq_self {l : Str} (h : ∀ c ∈ l, escChar c = [c]) :
    escGlobal l = l := by
  induction l with
  | nil => rfl
  | cons c rest ih =>
    rw [escGlobal, List.flatMap_cons, h c (by simp)]
    have : escGlobal rest = rest := ih (fun d hd => h d (by simp [hd]))
    rw [escGlobal] at this
    rw [this]
    rfl

theorem markerText_eq (ds : Str) : markerText ds = '(' :: (ds ++ [')']) := rfl

theorem escapeMd_markerText {ds : Str} (hd : digitsOnly ds = true) :
    escapeMd (markerText ds) = markerText ds := by
  have hG : escGlobal (markerText ds) = markerText ds := by
    apply escGlobal_eq_self
    intro c hc
    apply escChar_eq_single
    rw [markerText_eq] at hc
    rcases List.mem_cons.mp hc with rfl | hc2
    · exact Or.inl rfl
    · rcases List.mem_append.mp hc2 with hds | hpar
      · exact Or.inr (Or.inr (List.all_eq_true.mp (Bool.and_eq_true_iff.mp hd).2 c hds))
      · exact Or.inr (Or.inl (by simpa using hpar))
  unfold escapeMd
  rw [hG, markerText_eq]
  rfl

theorem jsTrim_markerText (ds : Str) : jsTrim (markerText ds) = markerText ds := by
  rw [markerText_eq]
  unfold jsTrim
  rw [List.dropWhile_cons, if_neg (by decide)]
  have h1 : ('(' :: (ds ++ [')'])).reverse = ')' :: (ds.reverse ++ ['(']) := by simp
  rw [h1, List.dropWhile_cons, if_neg (by decide), ← h1, List.reverse_reverse]

theorem tdList_markerText {ds : Str} (hd : digitsOnly ds = true) :
    tdList [] [HNode.text (markerText ds)] = markerText ds := by
  rw [tdList, tdList, tdNode, escapeMd_markerText hd]
  show tdJoin [] (markerText ds) = markerText ds
  rw [markerText_eq]
  unfold tdJoin trimNLRight trimNLLeft
  rw [List.dropWhile_cons, if_neg (by decide)]
  simp

theorem absnrPure_fields {attrs : List (String × Str)} (hA : absnrPure attrs = true) :
    hasClassA attrs "absnr".data = true ∧ hasClassA attrs "satz".data = false ∧
    hasClassA attrs "aufz".data = false ∧
    hasClassA attrs "sidebar-inside".data = false ∧
    hasClassA attrs "sidebar-outside".data = false := by
  simp only [absnrPure, Bool.and_eq_true_iff, Bool.not_eq_true'] at hA
  exact ⟨hA.1.1.1.1, hA.1.1.1.2, hA.1.1.2, hA.1.2, hA.2⟩

theorem markerNode_textContent (attrs : List (String × Str)) (ds : Str) :
    textContent (markerNode attrs ds) = markerText ds := by
  rw [markerNode, textContent, textContentList, textContentList, textContent]
  simp

theorem markerNode_not_blank (attrs : List (String × Str)) (ds : Str) :
    isBlankNode (markerNode attrs ds) = false := by
  rw [markerNode, isBlankNode]
  have h1 : textContent (HNode.elem "span" attrs [HNode.text (markerText ds)]) =
      markerText ds := markerNode_textContent attrs ds
  rw [h1, markerText_eq]
  simp [isWsChar]

theorem tdNode_marker {ds : Str} (attrs : List (String × Str))
    (hA : absnrPure attrs = true) (hd : digitsOnly ds = true) :
    tdNode (markerNode attrs ds) = '\n' :: boldMarker ds := by
  obtain ⟨h1, h2, h3, h4, h5⟩ := absnrPure_fields hA
  have hblank := markerNode_not_blank attrs ds
  rw [markerNode] at hblank ⊢
  conv_lhs => rw [tdNode]
  simp +decide [hblank, h1, h2, h3, h4, h5]
  rw [tdList_markerText hd, jsTrim_markerText]
  simp [boldMarker, markerText_eq]

theorem mem_textContentList {x : Char} {c : HNode} :
    ∀ {cs : List HNode}, c ∈ cs → x ∈ textContent c → x ∈ textContentList cs := by
  intro cs
  induction cs with
  | nil => intro h; simp at h
  | cons n rest ih =>
    intro hc hx
    rw [textContentList, List.mem_append]
    rcases List.mem_cons.mp hc with rfl | hc2
    · exact Or.inl hx
    · exact Or.inr (ih hc2 hx)

theorem holdsMarker_paren {ds : Str} {n : HNode} (h : HoldsMarker ds n) :
    '(' ∈ textContent n := by
  induction h with
  | here attrs hA =>
    rw [markerNode_textContent, markerText_eq]
    simp
  | deeper t attrs cs c hc ht hm ih =>
    rw [textContent]
    exact mem_textContentList hc ih

theorem infix_tdNode_transparent {p : Str} (t : String) (attrs : List (String × Str))
    (cs : List HNode)
    (ht : contentTransparent t attrs = true)
    (hpar : '(' ∈ textContent (HNode.elem t attrs cs))
    (hws : ∀ c ∈ p, isWsChar c = false)
    (h : p <:+: tdList [] cs) : p <:+: tdNode (HNode.elem t attrs cs) := by
  simp only [contentTransparent, Bool.and_eq_true, Bool.not_eq_true'] at ht
  obtain ⟨htsp, htbr⟩ := ht
  have hblank : isBlankNode (HNode.elem t attrs cs) = false := by
    rw [isBlankNode]
    have hall : (textContent (HNode.elem t attrs cs)).all isWsChar = false :=
      List.all_eq_false.mpr ⟨'(', hpar, by decide⟩
    rw [hall]
    simp
  have hempty : (jsTrim (textContent (HNode.elem t attrs cs))).isEmpty = false := by
    have hne := jsTrim_ne_nil hpar (by decide)
    cases hx : jsTrim (textContent (HNode.elem t attrs cs)) with
    | nil => exact absurd hx hne
    | cons a l => rfl
  have hout : (decide (t = "span") && hasClassA attrs "sidebar-outside".data) = false := by
    rcases Bool.and_eq_false_iff.mp htsp with hs | ho
    · simp [hs]
    · rcases Bool.or_eq_false_iff.mp ho with ⟨h1, _⟩
      simp [h1]
  have hin : (decide (t = "span") && hasClassA attrs "sidebar-inside".data) = false := by
    rcases Bool.and_eq_false_iff.mp htsp with hs | ho
    · simp [hs]
    · rcases Bool.or_eq_false_iff.mp ho with ⟨_, h1⟩
      simp [h1]
  conv_rhs => rw [tdNode]
  simp only [hblank, Bool.false_eq_true, if_false, hempty, Bool.and_false,
    hout, hin]
  by_cases hta : t = "a"
  · rw [if_pos hta]
    cases hhref : getAttrL attrs "href" with
    | none => simpa [anchorReplacement] using h
    | some hf =>
      rw [anchorReplacement]
      by_cases h1 : hf.isEmpty || hf = "null".data
      · rw [if_pos h1]; exact h
      · rw [if_neg h1]
        by_cases h2 : hf.head? = some '/'
        · rw [if_pos h2]
          exact h.trans ⟨['['], ']' :: '(' :: beckOrigin ++ hf ++ [')'], by simp⟩
        · rw [if_neg h2]
          exact h.trans ⟨['['], ']' :: '(' :: hf ++ [')'], by simp⟩
  · rw [if_neg hta]
    by_cases haufz : (decide (t = "span") && hasClassA attrs "aufz".data) = true
    · rw [if_pos haufz]
      exact h.trans ⟨['\n'], [' '], by simp⟩
    · rw [if_neg (by simpa using haufz)]
      by_cases hsatz : (decide (t = "span") && hasClassA attrs "satz".data) = true
      · rw [if_pos hsatz]; exact h
      · rw [if_neg (by simpa using hsatz)]
        by_cases habs : (decide (t = "span") && hasClassA attrs "absnr".data) = true
        · rw [if_pos habs]
          exact (infix_jsTrim_of_all hws h).trans ⟨"\n**".data, "**".data, by simp⟩
        · rw [if_neg (by simpa using habs)]
          cases hhl : headingLevel t with
          | some k =>
            dsimp only
            exact h.trans
              ⟨['\n', '\n'] ++ List.replicate k '#' ++ [' '], ['\n', '\n'], by simp⟩
          | none =>
            dsimp only
            by_cases htp : t = "p"
            · rw [if_pos htp]
              exact h.trans ⟨['\n', '\n'], ['\n', '\n'], by simp⟩
            · rw [if_neg htp, if_neg (of_decide_eq_false htbr)]
              by_cases hbl : isBlockTag t = true
              · rw [if_pos hbl]
                exact h.trans ⟨['\n', '\n'], ['\n', '\n'], by simp⟩
              · rw [if_neg (by simpa using hbl)]
                exact h

theorem boldMarker_infix_tdNode {ds : Str} {n : HNode} (hd : digitsOnly ds = true)
    (h : HoldsMarker ds n) : boldMarker ds <:+: tdNode n := by
  induction h with
  | here attrs hA =>
    rw [tdNode_marker attrs hA hd]
    exact infix_cons_right '\n' (List.infix_refl _)
  | deeper t attrs cs c hc ht hm ih =>
    exact infix_tdNode_transparent t attrs cs ht
      (by rw [textContent]; exact mem_textContentList hc (holdsMarker_paren hm))
      (boldMarker_not_ws hd)
      (infix_tdList (boldMarker_not_nl hd) cs [] (Or.inl ⟨c, hc, ih⟩))

theorem splitCh_ne_nil (sep : Char) (l : Str) : splitCh sep l ≠ [] := by
  cases l with
  | nil => simp [splitCh]
  | cons c rest =>
    rw [splitCh]
    by_cases hc : c = sep
    · simp [hc]
    · rw [if_neg hc]
      cases splitCh sep rest with
      | nil => simp
      | cons s ss => simp

theorem prefix_headSeg {q : Str} (hq : ∀ c ∈ q, c ≠ '\n') :
    ∀ l : Str, q <+: l →
      (match splitCh '\n' l with
       | s :: _ => q <+: s
       | [] => True) := by
  induction q with
  | nil =>
    intro l _
    cases hs : splitCh '\n' l with
    | nil => trivial
    | cons s ss => exact List.nil_prefix
  | cons d q' ih =>
    intro l hpre
    obtain ⟨t, ht⟩ := hpre
    cases l with
    | nil => simp at ht
    | cons c rest =>
      have ht2 : d :: (q' ++ t) = c :: rest := ht
      injection ht2 with hdc hrest
      subst hdc
      have hd : d ≠ '\n' := hq d (by simp)
      rw [splitCh, if_neg hd]
      have hih := ih (fun c hc => hq c (by simp [hc])) rest ⟨t, hrest⟩
      cases hs : splitCh '\n' rest with
      | nil => exact absurd hs (splitCh_ne_nil '\n' rest)
      | cons s ss =>
        rw [hs] at hih
        dsimp only at hih ⊢
        exact List.cons_prefix_cons.mpr ⟨rfl, hih⟩

theorem mem_splitCh_of_infix {p : Str} (hnl : ∀ c ∈ p, c ≠ '\n') :
    ∀ l : Str, p <:+: l → ∃ s ∈ splitCh '\n' l, p <+: s ∨ p <:+: s := by
  intro l
  induction l with
  | nil =>
    intro h
    rw [List.infix_nil] at h
    subst h
    exact ⟨[], by simp [splitCh], Or.inl List.nil_prefix⟩
  | cons c rest ih =>
    intro h
    by_cases hc : c = '\n'
    · subst hc
      rcases List.infix_cons_iff.mp h with hpre | htail
      · rcases List.prefix_cons_iff.mp hpre with rfl | ⟨t, rfl, _⟩
        · exact ⟨[], by simp [splitCh], Or.inl List.nil_prefix⟩
        · exact absurd rfl (hnl '\n' (by simp))
      · obtain ⟨s, hs, hps⟩ := ih htail
        exact ⟨s, by rw [splitCh, if_pos rfl]; simp [hs], hps⟩
    · rw [splitCh, if_neg hc]
      cases hsp : splitCh '\n' rest with
      | nil => exact absurd hsp (splitCh_ne_nil '\n' rest)
      | cons s ss =>
        rcases List.infix_cons_iff.mp h with hpre | htail
        · have hh := prefix_headSeg hnl (c :: rest) hpre
          rw [splitCh, if_neg hc, hsp] at hh
          exact ⟨c :: s, by simp, Or.inl hh⟩
        · obtain ⟨s2, hs2, hps2⟩ := ih htail
          rw [hsp] at hs2
          rcases List.mem_cons.mp hs2 with rfl | hmem
          · refine ⟨c :: s2, by simp, Or.inr ?_⟩
            rcases hps2 with hp | hp
            · exact infix_cons_right c hp.isInfix
            · exact infix_cons_right c hp
          · refine ⟨s2, by simp [hmem], hps2⟩

theorem rnScanDigits_spec :
    ∀ (l acc ds r2 : Str), rnScanDigits acc l = some (ds, r2) →
      ∃ mid, l = mid ++ ']' :: r2 ∧ ds = acc.reverse ++ mid ∧
        ∀ c ∈ mid, c.isDigit = true := by
  intro l
  induction l with
  | nil => intro acc ds r2 h; simp [rnScanDigits] at h
  | cons c rest ih =>
    intro acc ds r2 h
    by_cases hc : c = ']'
    · subst hc
      rw [rnScanDigits] at h
      by_cases ha : acc.isEmpty
      · rw [if_pos ha] at h; simp at h
      · rw [if_neg ha] at h
        obtain ⟨h1, h2⟩ := Prod.mk.injEq .. ▸ (Option.some.injEq .. ▸ h)
        exact ⟨[], by simp [← h2], by simp [← h1], by simp⟩
    · rw [show rnScanDigits acc (c :: rest) =
          (if c.isDigit then rnScanDigits (c :: acc) rest else none) from by
        rw [rnScanDigits.eq_def]
        split
        · rename_i heq
          injection heq with h1 _
          exact absurd h1 hc
        · rename_i heq
          injection heq with h1 h2
          subst h1; subst h2; rfl
        · rename_i heq
          simp at heq] at h
      by_cases hd : c.isDigit
      · rw [if_pos hd] at h
        obtain ⟨mid, hrest, hds, hdig⟩ := ih (c :: acc) ds r2 h
        refine ⟨c :: mid, by simp [hrest], by simp [hds], ?_⟩
        intro x hx
        rcases List.mem_cons.mp hx with rfl | hx2
        · exact hd
        · exact hdig x hx2
      · rw [if_neg hd] at h; simp at h

theorem infix_rnLine {p seg : Str} (hhead : p.head? = some '*')
    (h : p <:+: seg) : p <:+: rnLine seg := by
  cases seg with
  | nil => simpa [rnLine] using h
  | cons c rest =>
    by_cases hc : c = '['
    · subst hc
      have hrl : rnLine ('[' :: rest) =
          (match rnScanDigits [] rest with
           | some (ds, rest2) => "**[Rn. ".data ++ ds ++ "]**".data ++ rest2
           | none => '[' :: rest) := rfl
      cases hscan : rnScanDigits [] rest with
      | none =>
        rw [hrl, hscan]
        exact h
      | some pr =>
        obtain ⟨ds', r2⟩ := pr
        obtain ⟨mid, hrest, hds, hdig⟩ := rnScanDigits_spec rest [] ds' r2 hscan
        have hsite : ('[' :: rest : Str) = ('[' :: mid ++ [']']) ++ r2 := by
          rw [hrest]; simp
        have h2 : p <:+: r2 := by
          apply infix_append_right_of_head ?_ (hsite ▸ h)
          intro x hx
          rw [hhead]
          rcases List.mem_cons.mp hx with rfl | hx2
          · decide
          · rcases List.mem_append.mp hx2 with hmid | hpar
            · have hb := digit_bounds (hdig x hmid)
              intro h3
              have h4 : x = '*' := by simpa using h3.symm
              subst h4
              exact absurd hb (by decide)
            · have hx3 : x = ']' := by simpa using hpar
              subst hx3
              decide
        rw [hrl, hscan]
        exact infix_append_right _ h2
    · have he : rnLine (c :: rest) = c :: rest := by
        rw [rnLine.eq_def]
        split
        · rename_i heq
          injection heq with h1 _
          exact absurd h1 hc
        · rfl
      rw [he]
      exact h

theorem infix_joinNL {x : Str} : ∀ L : List Str, x ∈ L → x <:+: joinNL L := by
  intro L
  induction L with
  | nil => intro h; simp at h
  | cons s rest ih =>
    intro h
    rcases List.mem_cons.mp h with rfl | h2
    · cases rest with
      | nil => exact List.infix_refl x
      | cons b bs =>
        have he : joinNL (x :: b :: bs) = x ++ '\n' :: joinNL (b :: bs) := rfl
        rw [he]
        exact infix_append_left _ (List.infix_refl x)
    · cases rest with
      | nil => simp at h2
      | cons b bs =>
        have he : joinNL (s :: b :: bs) = s ++ '\n' :: joinNL (b :: bs) := rfl
        rw [he]
        exact infix_append_right _ (infix_cons_right '\n' (ih h2))

theorem infix_rnRewrite {p l : Str} (hnl : ∀ c ∈ p, c ≠ '\n')
    (hhead : p.head? = some '*') (h : p <:+: l) : p <:+: rnRewrite l := by
  obtain ⟨s, hs, hps⟩ := mem_splitCh_of_infix hnl l h
  have h2 : p <:+: s := by
    rcases hps with hp | hp
    · exact hp.isInfix
    · exact hp
  exact (infix_rnLine hhead h2).trans
    (infix_joinNL _ (List.mem_map_of_mem rnLine hs))

theorem prefix_collapseGo : ∀ (p : Str), (∀ c ∈ p, c ≠ '\n') →
    ∀ (l : Str) (k : Nat), p <+: l → p <+: collapseGo k l := by
  intro p
  induction p with
  | nil => intro _ l k _; exact List.nil_prefix
  | cons a q ih =>
    intro hnl l k h
    cases l with
    | nil => simp at h
    | cons c rest =>
      obtain ⟨hac, htail⟩ := List.cons_prefix_cons.mp h
      subst hac
      have ha : a ≠ '\n' := hnl a (List.mem_cons_self a q)
      rw [collapseGo, if_neg ha]
      exact List.cons_prefix_cons.mpr
        ⟨rfl, ih (fun c hc => hnl c (List.mem_cons_of_mem a hc)) rest 0 htail⟩

theorem infix_collapseGo {p : Str} (hnl : ∀ c ∈ p, c ≠ '\n') :
    ∀ (l : Str) (k : Nat), p <:+: l → p <:+: collapseGo k l := by
  intro l
  induction l with
  | nil => intro k h; simpa [collapseGo] using h
  | cons c rest ih =>
    intro k h
    rcases List.infix_cons_iff.mp h with hpre | htail
    · exact (prefix_collapseGo p hnl _ k hpre).isInfix
    · by_cases hc : c = '\n'
      · subst hc
        rw [collapseGo, if_pos rfl]
        by_cases hk : k < 2
        · rw [if_pos hk]
          exact infix_cons_right _ (ih (k + 1) htail)
        · rw [if_neg hk]
          exact ih k htail
      · rw [collapseGo, if_neg hc]
        exact infix_cons_right _ (ih 0 htail)

theorem deleteNullArt_cons_of_ne {c : Char} (rest : Str) (hc : c ≠ '[') :
    deleteNullArt (c :: rest) = c :: deleteNullArt rest := by
  rw [deleteNullArt]
  intro a hb _
  exact hc hb

theorem prefix_deleteNullArt : ∀ (p : Str), '[' ∉ p →
    ∀ (l : Str), p <+: l → p <+: deleteNullArt l := by
  intro p
  induction p with
  | nil => intro _ l _; exact List.nil_prefix
  | cons a q ih =>
    intro hp l h
    cases l with
    | nil => simp at h
    | cons c rest =>
      obtain ⟨hac, htail⟩ := List.cons_prefix_cons.mp h
      subst hac
      have ha : a ≠ '[' := by
        rintro rfl
        exact hp (List.mem_cons_self _ _)
      rw [deleteNullArt_cons_of_ne rest ha]
      exact List.cons_prefix_cons.mpr
        ⟨rfl, ih (fun he => hp (List.mem_cons_of_mem a he)) rest htail⟩

theorem infix_deleteNullArt {p : Str} (hp : '[' ∉ p)
    (hhead : p.head? = some '*') :
    ∀ (l : Str), p <:+: l → p <:+: deleteNullArt l := by
  intro l
  induction l using deleteNullArt.induct with
  | case1 rest ih =>
    intro h
    have hsite : ('[' :: ']' :: '(' :: 'n' :: 'u' :: 'l' :: 'l' :: ')' ::
        rest : Str) = "[](null)".data ++ rest := rfl
    have h2 : p <:+: rest := by
      apply infix_append_right_of_head ?_ (hsite ▸ h)
      intro x hx
      rw [hhead]
      have hx2 : x ∈ ['[', ']', '(', 'n', 'u', 'l', 'l', ')'] := hx
      fin_cases hx2 <;> decide
    rw [deleteNullArt]
    exact ih h2
  | case2 c rest hne ih =>
    intro h
    rcases List.infix_cons_iff.mp h with hpre | htail
    · exact (prefix_deleteNullArt p hp _ hpre).isInfix
    · rw [deleteNullArt]
      exact infix_cons_right _ (ih htail)
      exact hne
  | case3 =>
    intro h
    simpa [deleteNullArt] using h

/-- C4 counterexample: the page `cexTitlePage` resolves its content
container to a `.dokcontent` block that contains the heading
`<h2 class="paragr">§ 823 Schadensersatzpflicht</h2>` and both `absnr`
markers `(1)` and `(2)`, and both render as `**(1)**` / `**(2)**` in the
body; yet the returned title is not `§ 823 Schadensersatzpflicht`,
because the title is read from the document's first `h2.paragr`, which
here is a different heading outside the content container. -/
theorem htmlToMarkdown_title_counterexample :
    (∃ k, selectedContainer cexTitlePage = some k ∧
      (∃ e ∈ k.childrenOf, isParagrH2 e = true ∧
        jsTrim (textContent e) = "§ 823 Schadensersatzpflicht".data) ∧
      markerNode [("class", "absnr".data)] "1".data ∈ k.childrenOf ∧
      markerNode [("class", "absnr".data)] "2".data ∈ k.childrenOf) ∧
    boldMarker "1".data <:+: (htmlToMarkdown cexTitlePage).body ∧
    boldMarker "2".data <:+: (htmlToMarkdown cexTitlePage).body ∧
    (htmlToMarkdown cexTitlePage).title ≠ "§ 823 Schadensersatzpflicht".data := by
  refine ⟨⟨HNode.elem "div" [("class", "dokcontent".data)]
      [HNode.elem "h2" [("class", "paragr".data)]
        [.text "§ 823 Schadensersatzpflicht".data],
       markerNode [("class", "absnr".data)] "1".data,
       markerNode [("class", "absnr".data)] "2".data],
    rfl,
    ⟨HNode.elem "h2" [("class", "paragr".data)]
        [.text "§ 823 Schadensersatzpflicht".data],
      List.mem_cons_self _ _, by decide, rfl⟩,
    List.mem_cons_of_mem _ (List.mem_cons_self _ _),
    List.mem_cons_of_mem _ (List.mem_cons_of_mem _ (List.mem_cons_self _ _))⟩,
    by decide, by decide, by decide⟩

/-- C4 (amended): the title is the trimmed text of the document's first
`h2.paragr` element whenever that text is non-empty (it is not required
to come from the content container); and every `absnr` paragraph-number
marker with digit text `(n)` that survives inside the converted content
(below content-transparent elements) is rendered as `**(n)**` in the
output body. -/
theorem absnr_marker_rendering (root : HNode) (e : HNode) (ds : Str)
    (hh : (docSelect isParagrH2 root).head? = some e)
    (ht : (jsTrim (textContent e)).isEmpty = false)
    (hd : digitsOnly ds = true)
    (hold : ∃ c ∈ contentChildren root, HoldsMarker ds c) :
    (htmlToMarkdown root).title = jsTrim (textContent e) ∧
    boldMarker ds <:+: (htmlToMarkdown root).body := by
  constructor
  · have h1 : (htmlToMarkdown root).title = docTitle root := by
      simp only [htmlToMarkdown]
    rw [h1, docTitle, hh]
    simp [ht]
  · obtain ⟨c, hc, hm⟩ := hold
    have hnl := boldMarker_not_nl hd
    have hws := boldMarker_not_ws hd
    have h1 : boldMarker ds <:+: tdNode c := boldMarker_infix_tdNode hd hm
    have h2 := infix_tdList hnl (contentChildren root) [] (Or.inl ⟨c, hc, h1⟩)
    have h3 := infix_tdPostTrim_of_all hws h2
    have h4 := infix_rnRewrite hnl boldMarker_head h3
    have h5 := infix_collapseGo hnl _ 0 h4
    have h6 := infix_deleteNullArt
      (fun hmem => (boldMarker_no_bracket hd '[' hmem).1 rfl) boldMarker_head _ h5
    have h7 := infix_jsTrim_of_all hws h6
    have hb : (htmlToMarkdown root).body =
        jsTrim (deleteNullArt (collapseGo 0 (rnRewrite (tdPostTrim
          (tdList [] (contentChildren root)))))) := by
      simp only [htmlToMarkdown, collapseNewlines, tdRun]
    rw [hb]
    exact h7

theorem absnr_marker_rendering_witness :
    (htmlToMarkdown scenarioAPage).title = "§ 823 Schadensersatzpflicht".data ∧
    boldMarker "1".data <:+: (htmlToMarkdown scenarioAPage).body ∧
    boldMarker "2".data <:+: (htmlToMarkdown scenarioAPage).body := by
  have hcc : contentChildren scenarioAPage =
      markerNode [("class", "absnr".data)] "1".data ::
      HNode.elem "span" [("class", "satz".data)]
        [.text "Wer vorsätzlich oder fahrlässig handelt.".data] ::
      markerNode [("class", "absnr".data)] "2".data ::
      [HNode.elem "span" [("class", "satz".data)]
        [.text "Die gleiche Verpflichtung trifft denjenigen.".data]] := rfl
  have h1 := absnr_marker_rendering scenarioAPage
      (HNode.elem "h2" [("class", "paragr".data)]
        [.text "§ 823 Schadensersatzpflicht".data]) "1".data
      rfl rfl (by decide)
      ⟨markerNode [("class", "absnr".data)] "1".data,
       by rw [hcc]; exact List.mem_cons_self _ _,
       HoldsMarker.here _ (by decide)⟩
  have h2 := absnr_marker_rendering scenarioAPage
      (HNode.elem "h2" [("class", "paragr".data)]
        [.text "§ 823 Schadensersatzpflicht".data]) "2".data
      rfl rfl (by decide)
      ⟨markerNode [("class", "absnr".data)] "2".data,
       by rw [hcc];
          exact List.mem_cons_of_mem _
            (List.mem_cons_of_mem _ (List.mem_cons_self _ _)),
       HoldsMarker.here _ (by decide)⟩
  exact ⟨h1.1.trans (by decide), h1.2, h2.2⟩
